import Mathlib

/-!
Shallow embedding of the git-tools backend (Rust, `src-tauri/src`):
the diff parser, the single-line patch synthesizer, the conflict/operation
state detector, the rebase run helpers and the process executor's
outcome classification.  Rust strings are modelled as `List Char`
(`String.data`); byte-level slicing, which can abort on a non-boundary
index, is modelled with `Option` (`none` = abort).  `u32` arithmetic is
modelled as `Nat` reduced modulo `2 ^ 32` where the source increments
counters.
-/

/-- Rust `u32` modulus. -/
def u32Mod : Nat := 4294967296

/-- Rust `char::is_whitespace`: the Unicode `White_Space` code points
(U+0009..U+000D, U+0020, U+0085, U+00A0, U+1680, U+2000..U+200A, U+2028,
U+2029, U+202F, U+205F, U+3000). -/
def isWsChar (c : Char) : Bool :=
  (9 ≤ c.toNat && c.toNat ≤ 13) || c.toNat = 32 || c.toNat = 133
    || c.toNat = 160 || c.toNat = 5760
    || (8192 ≤ c.toNat && c.toNat ≤ 8202)
    || c.toNat = 8232 || c.toNat = 8233 || c.toNat = 8239
    || c.toNat = 8287 || c.toNat = 12288

/-- Rust `str::starts_with` on char lists. -/
def listIsPre : List Char → List Char → Bool
  | [], _ => true
  | _ :: _, [] => false
  | p :: ps, c :: cs => p = c && listIsPre ps cs

/-- Rust `str::contains(substring)` on char lists. -/
def containsSeq (needle : List Char) : List Char → Bool
  | [] => listIsPre needle []
  | c :: cs => listIsPre needle (c :: cs) || containsSeq needle cs

/-- Split into `\n`-separated segments (keeps a final empty segment). -/
def splitNl : List Char → List (List Char)
  | [] => [[]]
  | c :: cs =>
    if c = '\n' then [] :: splitNl cs
    else
      match splitNl cs with
      | [] => [[c]]
      | l :: ls => (c :: l) :: ls

/-- Drop one trailing `\r`, as Rust `str::lines` does per line. -/
def stripCr (l : List Char) : List Char :=
  if l ≠ [] && l.getLast? = some '\r' then l.dropLast else l

/-- Rust `str::lines`: `\n`-separated, no segment after a trailing newline,
one trailing `\r` removed per line. -/
def rustLines (s : List Char) : List (List Char) :=
  match s with
  | [] => []
  | _ =>
    let segs := splitNl s
    (if s.getLast? = some '\n' then segs.dropLast else segs).map stripCr

/-- Rust `str::split_whitespace`: maximal non-whitespace runs. -/
def splitWsAux (cur : List Char) : List Char → List (List Char)
  | [] => if cur = [] then [] else [cur.reverse]
  | c :: cs =>
    if isWsChar c then
      if cur = [] then splitWsAux [] cs else cur.reverse :: splitWsAux [] cs
    else splitWsAux (c :: cur) cs

/-- Rust `str::split_whitespace` entry point. -/
def splitWs (l : List Char) : List (List Char) := splitWsAux [] l

/-- Rust `str::trim` (leading and trailing `char::is_whitespace` runs). -/
def trimChars (l : List Char) : List Char :=
  ((l.dropWhile isWsChar).reverse.dropWhile isWsChar).reverse

/-- Numeric value of a digit run, `none` when a non-digit appears. -/
def digitsVal : List Char → Option Nat
  | [] => some 0
  | c :: cs =>
    if c.isDigit then
      (digitsVal cs).map (fun v => (c.toNat - 48) * 10 ^ cs.length + v)
    else none

/-- Digit-run part of Rust `u32::from_str`: one or more digits, value at
most `u32::MAX`. -/
def parseU32Body (body : List Char) : Option Nat :=
  match body with
  | [] => none
  | _ =>
    match digitsVal body with
    | some v => if v < u32Mod then some v else none
    | none => none

/-- Rust `u32::from_str`: optional leading `+`, then a bounded digit run. -/
def parseU32 (l : List Char) : Option Nat :=
  match l with
  | '+' :: rest => parseU32Body rest
  | other => parseU32Body other

/-- Rust byte slice `&s[1..]`: defined only when the first character is a
single UTF-8 byte; `none` models the char-boundary abort. -/
def dropFirstByte : List Char → Option (List Char)
  | [] => none
  | c :: rest => if c.utf8Size = 1 then some rest else none

/-- Content before the first `,`, the whole list when there is none
(Rust `split(',').next()`). -/
def beforeComma : List Char → List Char
  | [] => []
  | c :: cs => if c = ',' then [] else c :: beforeComma cs

/-- Split at the first occurrence of `needle`, returning the remainder
after it (Rust `str::find` + slice), `none` when absent. -/
def afterFirstSeq (needle : List Char) : List Char → Option (List Char)
  | [] => if listIsPre needle [] then some [] else none
  | c :: cs =>
    if listIsPre needle (c :: cs) then some (List.drop needle.length (c :: cs))
    else afterFirstSeq needle cs

/-!
Diff parser: `parse_diff_output` from `src-tauri/src/commands.rs`
(lines 2522-2647) over the `models.rs` diff types.  The per-hunk `id`
field, a fresh UUID string on every parse, is not modelled.
-/

/-- Line kinds of `models::DiffLineType`. -/
inductive DiffLineType
  | context
  | add
  | remove
  deriving DecidableEq, Repr

/-- `models::DiffLine`. -/
structure DiffLine where
  type_ : DiffLineType
  content : String
  old_line_number : Option Nat
  new_line_number : Option Nat
  deriving DecidableEq, Repr

/-- `models::DiffHunk` without the per-parse UUID `id`. -/
structure DiffHunk where
  old_start : Nat
  new_start : Nat
  lines : List DiffLine
  deriving DecidableEq, Repr

/-- `models::DiffFile`. -/
structure DiffFile where
  path : String
  status : String
  hunks : List DiffHunk
  deriving DecidableEq, Repr

/-- Loop state of `parse_diff_output`. -/
structure DiffParseSt where
  files : List DiffFile
  cur : Option DiffFile
  curHunk : Option DiffHunk
  oldLn : Nat
  newLn : Nat
  deriving DecidableEq, Repr

/-- Push the open hunk, when any, into the file being built. -/
def flushHunk (f : DiffFile) (h : Option DiffHunk) : DiffFile :=
  { f with hunks := f.hunks ++ h.toList }

/-- Push the file being built, when any, into the finished list. -/
def flushFile (files : List DiffFile) (cur : Option DiffFile)
    (curHunk : Option DiffHunk) : List DiffFile :=
  match cur with
  | none => files
  | some f => files ++ [flushHunk f curHunk]

/-- Path extraction from a `diff --git a/old b/new` line: text after the
first `\x20b/`, trimmed; falling back to the last whitespace token. -/
def diffGitPath (line : List Char) : String :=
  match afterFirstSeq " b/".data line with
  | some rest => String.mk (trimChars rest)
  | none => String.mk ((splitWs line).getLastD [])

/-- Range start from a hunk header token: byte slice `[1..]` (may abort),
text before the first comma, parsed with `0` on failure. -/
def hunkRangeStart (tok : List Char) : Option Nat :=
  (dropFirstByte tok).map (fun r => (parseU32 (beforeComma r)).getD 0)

/-- State after a `diff --git` line: flush the built file, open a fresh one
with status `M`. -/
def stepFileStart (st : DiffParseSt) (line : List Char) : DiffParseSt :=
  { files := flushFile st.files st.cur st.curHunk,
    cur := some ⟨diffGitPath line, "M", []⟩,
    curHunk := none, oldLn := st.oldLn, newLn := st.newLn }

/-- Hunk-header (`@@`) handling: flush the open hunk; with three header
tokens parse both range starts (byte slice may abort) and open a hunk,
otherwise open none. -/
def stepHunkHeader (st : DiffParseSt) (f : DiffFile) (line : List Char) :
    Option DiffParseSt :=
  match splitWs line with
  | _ :: p1 :: p2 :: _ =>
    match hunkRangeStart p1, hunkRangeStart p2 with
    | some o, some n =>
      some { files := st.files, cur := some (flushHunk f st.curHunk),
             curHunk := some ⟨o, n, []⟩, oldLn := o, newLn := n }
    | _, _ => none
  | _ =>
    some { st with cur := some (flushHunk f st.curHunk), curHunk := none }

/-- Body-line handling inside a file: stamp `+`/`-`/space lines with the
running counters when a hunk is open, ignore everything else. -/
def stepHunkLine (st : DiffParseSt) (line : List Char) : DiffParseSt :=
  match st.curHunk with
  | none => st
  | some hk =>
    if listIsPre "+".data line then
      { st with
        curHunk := some { hk with lines := hk.lines ++
          [⟨.add, String.mk (line.drop 1), none, some st.newLn⟩] },
        newLn := (st.newLn + 1) % u32Mod }
    else if listIsPre "-".data line then
      { st with
        curHunk := some { hk with lines := hk.lines ++
          [⟨.remove, String.mk (line.drop 1), some st.oldLn, none⟩] },
        oldLn := (st.oldLn + 1) % u32Mod }
    else if listIsPre " ".data line then
      { st with
        curHunk := some { hk with lines := hk.lines ++
          [⟨.context, String.mk (line.drop 1), some st.oldLn,
            some st.newLn⟩] },
        oldLn := (st.oldLn + 1) % u32Mod,
        newLn := (st.newLn + 1) % u32Mod }
    else st

/-- Handling of a line when a file is being built: the `else if` chain of
the loop body. -/
def stepInFile (st : DiffParseSt) (f : DiffFile) (line : List Char) :
    Option DiffParseSt :=
  if listIsPre "new file mode".data line then
    some { st with cur := some { f with status := "A" } }
  else if listIsPre "deleted file mode".data line then
    some { st with cur := some { f with status := "D" } }
  else if listIsPre "rename from".data line then
    some { st with cur := some { f with status := "R" } }
  else if listIsPre "index".data line || listIsPre "---".data line
      || listIsPre "+++".data line then
    some st
  else if listIsPre "Binary files".data line then
    some st
  else if listIsPre "@@".data line then
    stepHunkHeader st f line
  else
    some (stepHunkLine st line)

/-- One iteration of the `parse_diff_output` loop; `none` models the
byte-slice abort inside hunk-header parsing. -/
def parseDiffStep (st : DiffParseSt) (line : List Char) : Option DiffParseSt :=
  if listIsPre "diff --git".data line then some (stepFileStart st line)
  else
    match st.cur with
    | none => some st
    | some f => stepInFile st f line

/-- Initial loop state of `parse_diff_output`. -/
def diffParseInit : DiffParseSt := ⟨[], none, none, 0, 0⟩

/-- `parse_diff_output`: single forward pass over the lines, final flush;
`none` models the byte-slice abort. -/
def parse_diff_output (stdout : String) : Option (List DiffFile) :=
  ((rustLines stdout.data).foldlM parseDiffStep diffParseInit).map
    (fun st => flushFile st.files st.cur st.curHunk)

/-- Absence of the byte-slice abort hazard on one line: either not a hunk
header, or fewer than three tokens, or both range tokens start with a
single-byte character. -/
def hunkHeaderSliceOk (l : List Char) : Bool :=
  !(listIsPre "@@".data l) ||
    (match splitWs l with
     | _ :: p1 :: p2 :: _ =>
       (dropFirstByte p1).isSome && (dropFirstByte p2).isSome
     | _ => true)

/-!
Invariants of the parsed diff structure (stamped line numbers and
kind/field consistency), proved by induction over the parse loop.
-/

/-- Old-side line numbers of a hunk, in line order. -/
def hunkOldNums (h : DiffHunk) : List Nat :=
  h.lines.filterMap (·.old_line_number)

/-- New-side line numbers of a hunk, in line order. -/
def hunkNewNums (h : DiffHunk) : List Nat :=
  h.lines.filterMap (·.new_line_number)

/-- Consecutive counter values from `a`, reduced modulo `2 ^ 32`. -/
def rangeMod (a k : Nat) : List Nat :=
  (List.range k).map (fun i => (a + i) % u32Mod)

/-- Kind/field consistency of one parsed diff line: Add lines carry only a
new number, Remove lines only an old number, Context lines both. -/
def lineFieldsOk (l : DiffLine) : Prop :=
  (l.type_ = DiffLineType.add →
    l.old_line_number = none ∧ l.new_line_number.isSome) ∧
  (l.type_ = DiffLineType.remove →
    l.new_line_number = none ∧ l.old_line_number.isSome) ∧
  (l.type_ = DiffLineType.context →
    l.old_line_number.isSome ∧ l.new_line_number.isSome)

/-- Invariant of a finished hunk. -/
def hunkOk (h : DiffHunk) : Prop :=
  (∀ l ∈ h.lines, lineFieldsOk l) ∧
  hunkOldNums h = rangeMod h.old_start (hunkOldNums h).length ∧
  hunkNewNums h = rangeMod h.new_start (hunkNewNums h).length

/-- Invariant of a finished file. -/
def fileOk (f : DiffFile) : Prop := ∀ h ∈ f.hunks, hunkOk h

/-- Invariant of the hunk currently open, relative to the two counters. -/
def openHunkOk (h : DiffHunk) (o n : Nat) : Prop :=
  (∀ l ∈ h.lines, lineFieldsOk l) ∧
  hunkOldNums h = rangeMod h.old_start (hunkOldNums h).length ∧
  hunkNewNums h = rangeMod h.new_start (hunkNewNums h).length ∧
  o = (h.old_start + (hunkOldNums h).length) % u32Mod ∧
  n = (h.new_start + (hunkNewNums h).length) % u32Mod

/-- Invariant of the whole parse state. -/
def stOk (st : DiffParseSt) : Prop :=
  (∀ f ∈ st.files, fileOk f) ∧
  (∀ f, st.cur = some f → fileOk f) ∧
  (∀ h, st.curHunk = some h → openHunkOk h st.oldLn st.newLn)

/-!
Patch synthesizer: `parse_unstaged_zero_context_diff`, `lookup_line_in_patch`
and `build_stage_line_patch` from `src-tauri/src/commands/diff_commands.rs`
(lines 3-276).  The error messages are abbreviated; claims do not depend
on their text.
-/

/-- `diff_commands::ParsedPatchLineKind`. -/
inductive ParsedPatchLineKind
  | add
  | remove
  deriving DecidableEq, Repr

/-- `diff_commands::ParsedPatchLine`. -/
structure ParsedPatchLine where
  kind : ParsedPatchLineKind
  content : String
  old_line : Option Nat
  new_line : Option Nat
  old_anchor : Nat
  new_anchor : Nat
  deriving DecidableEq, Repr

/-- `diff_commands::ParsedPatchHunk`. -/
structure ParsedPatchHunk where
  lines : List ParsedPatchLine
  deriving DecidableEq, Repr

/-- `diff_commands::ParsedUnstagedPatch`. -/
structure ParsedUnstagedPatch where
  header_lines : List String
  hunks : List ParsedPatchHunk
  deriving DecidableEq, Repr

/-- `diff_commands::StageLineSelection`. -/
structure StageLineSelection where
  old_line_number : Option Nat
  new_line_number : Option Nat
  deriving DecidableEq, Repr

/-- Split at the first comma: Rust `splitn(2, ',')` as (first, rest?). -/
def splitFirstComma : List Char → List Char × Option (List Char)
  | [] => ([], none)
  | c :: cs =>
    if c = ',' then ([], some cs)
    else
      let (b, a) := splitFirstComma cs
      (c :: b, a)

/-- `diff_commands::parse_hunk_range`: leading marker character, then
`start[,count]` with count defaulting to 1. -/
def parse_hunk_range (token : List Char) (pre : Char) :
    Except String (Nat × Nat) :=
  match token with
  | [] => .error "Invalid hunk token"
  | c :: rest =>
    if c = pre then
      let (b, a) := splitFirstComma rest
      match parseU32 b with
      | none => .error "Invalid hunk range start"
      | some start =>
        match a with
        | some av =>
          match parseU32 av with
          | none => .error "Invalid hunk range count"
          | some count => .ok (start, count)
        | none => .ok (start, 1)
    else .error "Invalid hunk token"

/-- Header scan of `diff_commands::parse_diff_header`: collect lines until
a hunk marker, or a second `diff --git` once something was collected. -/
def parseDiffHeaderAux (ls : List (List Char)) (acc : List String)
    (idx : Nat) : List String × Nat :=
  match ls with
  | [] => (acc, idx)
  | l :: rest =>
    if listIsPre "@@".data l then (acc, idx)
    else if listIsPre "diff --git ".data l && !acc.isEmpty then (acc, idx)
    else parseDiffHeaderAux rest (acc ++ [String.mk l]) (idx + 1)

/-- `diff_commands::parse_diff_header`. -/
def parse_diff_header (ls : List (List Char)) :
    Except String (List String × Nat) :=
  match parseDiffHeaderAux ls [] 0 with
  | (hdr, idx) =>
    if hdr.isEmpty then .error "Unable to parse diff header"
    else .ok (hdr, idx)

/-- Body walk of `diff_commands::parse_hunk_lines`: collect Add/Remove
lines with anchors, advancing cursors through unlisted context; returns
the parsed lines and the number of input lines consumed. -/
def parseHunkBody (oldC newC : Nat) (ls : List (List Char)) :
    List ParsedPatchLine × Nat :=
  match ls with
  | [] => ([], 0)
  | l :: rest =>
    if listIsPre "@@".data l || listIsPre "diff --git ".data l then ([], 0)
    else if listIsPre "\\ No newline at end of file".data l then
      let (ps, k) := parseHunkBody oldC newC rest
      (ps, k + 1)
    else if listIsPre "+".data l then
      let (ps, k) := parseHunkBody oldC ((newC + 1) % u32Mod) rest
      (⟨.add, String.mk (l.drop 1), none, some newC, oldC, newC⟩ :: ps, k + 1)
    else if listIsPre "-".data l then
      let (ps, k) := parseHunkBody ((oldC + 1) % u32Mod) newC rest
      (⟨.remove, String.mk (l.drop 1), some oldC, none, oldC, newC⟩ :: ps,
        k + 1)
    else if listIsPre " ".data l then
      let (ps, k) := parseHunkBody ((oldC + 1) % u32Mod) ((newC + 1) % u32Mod)
        rest
      (ps, k + 1)
    else
      let (ps, k) := parseHunkBody oldC newC rest
      (ps, k + 1)

/-- `diff_commands::parse_hunk_lines` on a header line and the lines after
it; the returned count is the number of body lines consumed. -/
def parse_hunk_lines (header : List Char) (rest : List (List Char)) :
    Except String (ParsedPatchHunk × Nat) :=
  match splitWs header with
  | _ :: p1 :: p2 :: _ => do
    let (old_start, _) ← parse_hunk_range p1 '-'
    let (new_start, _) ← parse_hunk_range p2 '+'
    let (ps, k) := parseHunkBody old_start new_start rest
    .ok (⟨ps⟩, k)
  | _ => .error "Invalid hunk header"

/-- Hunk loop of `diff_commands::parse_unstaged_zero_context_diff`. -/
def collectHunks (ls : List (List Char)) (hunks : List ParsedPatchHunk) :
    Except String (List ParsedPatchHunk) :=
  match ls with
  | [] => .ok hunks
  | l :: rest =>
    if listIsPre "diff --git ".data l && !hunks.isEmpty then .ok hunks
    else if !listIsPre "@@".data l then collectHunks rest hunks
    else
      match parse_hunk_lines l rest with
      | .error e => .error e
      | .ok (hunk, k) => collectHunks (rest.drop k) (hunks ++ [hunk])
termination_by ls.length
decreasing_by
  · simp
  · simp [List.length_drop]
    omega

/-- `diff_commands::parse_unstaged_zero_context_diff` (with
`build_parsed_patch` inlined as its final emptiness check). -/
def parse_unstaged_zero_context_diff (diff_output : String) :
    Except String ParsedUnstagedPatch := do
  let lines := rustLines diff_output.data
  let (header_lines, idx) ← parse_diff_header lines
  let hunks ← collectHunks (lines.drop idx) []
  if hunks.isEmpty then
    .error "No unstaged diff hunks available for selected file"
  else .ok ⟨header_lines, hunks⟩

/-- Own-side number test of `diff_commands::lookup_line_in_patch`. -/
def lineMatches (l : ParsedPatchLine) (n : Nat) : ParsedPatchLineKind → Bool
  | ParsedPatchLineKind.add => l.new_line == some n
  | ParsedPatchLineKind.remove => l.old_line == some n

/-- Per-hunk scan of `diff_commands::lookup_line_in_patch`. -/
def findLineInHunk (n : Nat) (t : ParsedPatchLineKind) :
    List ParsedPatchLine → Option ParsedPatchLine
  | [] => none
  | l :: rest =>
    if l.kind = t && lineMatches l n t then some l
    else findLineInHunk n t rest

/-- Hunk iteration of `diff_commands::lookup_line_in_patch`. -/
def lookupLineAux (n : Nat) (t : ParsedPatchLineKind) (idx : Nat) :
    List ParsedPatchHunk → Except String (Nat × ParsedPatchLine)
  | [] => .error "Unable to find line in unstaged diff"
  | h :: rest =>
    match findLineInHunk n t h.lines with
    | some l => .ok (idx, l)
    | none => lookupLineAux n t (idx + 1) rest

/-- `diff_commands::lookup_line_in_patch`. -/
def lookup_line_in_patch (patch : ParsedUnstagedPatch) (line_number : Nat)
    (line_type : ParsedPatchLineKind) : Except String (Nat × ParsedPatchLine) :=
  lookupLineAux line_number line_type 0 patch.hunks

/-- `diff_commands::build_stage_line_patch`: synthesize the minimal
single-line (or paired-modification) hunk under the preserved header. -/
def build_stage_line_patch (patch : ParsedUnstagedPatch)
    (selection : StageLineSelection) : Except String String :=
  match selection.old_line_number, selection.new_line_number with
  | some old_line_number, some new_line_number => do
    let (remove_hunk_index, remove_line) ←
      lookup_line_in_patch patch old_line_number ParsedPatchLineKind.remove
    let (add_hunk_index, add_line) ←
      lookup_line_in_patch patch new_line_number ParsedPatchLineKind.add
    if remove_hunk_index ≠ add_hunk_index then
      .error "Selected modified line pair is in different hunks"
    else do
      let old_start ← match remove_line.old_line with
        | some v => Except.ok v
        | none => .error "Selected removed line is missing old line number"
      let new_start ← match add_line.new_line with
        | some v => Except.ok v
        | none => .error "Selected added line is missing new line number"
      let patch_lines := patch.header_lines ++
        ["@@ -" ++ toString old_start ++ ",1 +" ++ toString new_start
           ++ ",1 @@",
         "-" ++ remove_line.content, "+" ++ add_line.content]
      .ok (String.intercalate "\n" patch_lines ++ "\n")
  | some old_line_number, none => do
    let (_, remove_line) ←
      lookup_line_in_patch patch old_line_number ParsedPatchLineKind.remove
    let old_start ← match remove_line.old_line with
      | some v => Except.ok v
      | none => .error "Selected removed line is missing old line number"
    let patch_lines := patch.header_lines ++
      ["@@ -" ++ toString old_start ++ ",1 +"
         ++ toString remove_line.new_anchor ++ ",0 @@",
       "-" ++ remove_line.content]
    .ok (String.intercalate "\n" patch_lines ++ "\n")
  | none, some new_line_number => do
    let (_, add_line) ←
      lookup_line_in_patch patch new_line_number ParsedPatchLineKind.add
    let new_start ← match add_line.new_line with
      | some v => Except.ok v
      | none => .error "Selected added line is missing new line number"
    let patch_lines := patch.header_lines ++
      ["@@ -" ++ toString add_line.old_anchor ++ ",0 +"
         ++ toString new_start ++ ",1 @@",
       "+" ++ add_line.content]
    .ok (String.intercalate "\n" patch_lines ++ "\n")
  | none, none => .error "Stage-line selection is empty"

/-!
Conflict detection: `is_unmerged_status`, `parse_status_path` and
`collect_conflict_paths` from `src-tauri/src/commands/conflict_commands.rs`
(lines 19-63).  Byte slices `line[0..2]`, `line[3..]` and the quote strip
are modelled with explicit char-boundary checks (`none` = abort).
-/

/-- UTF-8 byte length of a char list (Rust `str::len`). -/
def byteLen (l : List Char) : Nat := (l.map Char.utf8Size).sum

/-- `conflict_commands::is_unmerged_status`. -/
def is_unmerged_status (status : List Char) : Bool :=
  status = "DD".data || status = "AU".data || status = "UD".data ||
  status = "UA".data || status = "DU".data || status = "AA".data ||
  status = "UU".data

/-- Rust byte slice `&line[0..2]`: defined when byte offset 2 is a char
boundary. -/
def take2Bytes : List Char → Option (List Char)
  | [] => none
  | c :: rest =>
    if c.utf8Size = 1 then
      match rest with
      | c2 :: _ => if c2.utf8Size = 1 then some [c, c2] else none
      | [] => none
    else if c.utf8Size = 2 then some [c]
    else none

/-- Rust byte slice `&line[3..]`: defined when byte offset 3 is a char
boundary. -/
def drop3Bytes : List Char → Option (List Char)
  | [] => none
  | c1 :: r1 =>
    if c1.utf8Size = 3 then some r1
    else if c1.utf8Size = 2 then
      match r1 with
      | c2 :: r2 => if c2.utf8Size = 1 then some r2 else none
      | [] => none
    else if c1.utf8Size = 1 then
      match r1 with
      | c2 :: r2 =>
        if c2.utf8Size = 2 then some r2
        else if c2.utf8Size = 1 then
          match r2 with
          | c3 :: r3 => if c3.utf8Size = 1 then some r3 else none
          | [] => none
        else none
      | [] => none
    else none

/-- Quote stripping shared by `parse_status_path`: drop surrounding double
quotes when both ends are quoted and the text is at least two bytes. -/
def stripQuotes (path : List Char) : List Char :=
  if path.head? = some '"' && path.getLast? = some '"'
      && decide (2 ≤ byteLen path) then
    (path.drop 1).dropLast
  else path

/-- `conflict_commands::parse_status_path`: `some none` is a skipped line,
`none` the byte-slice abort. -/
def parse_status_path (line : List Char) : Option (Option String) :=
  if byteLen line < 4 then some none
  else
    match drop3Bytes line with
    | none => none
    | some rest =>
      let path := stripQuotes (trimChars rest)
      if path.isEmpty then some none else some (some (String.mk path))

/-- Fold of `conflict_commands::collect_conflict_paths`: `paths` in push
order, `seen` the HashSet (as the reversed push list). -/
def collectConflictAux : List (List Char) → List String → List String →
    Option (List String)
  | [], paths, _ => some paths
  | line :: rest, paths, seen =>
    if byteLen line < 2 then collectConflictAux rest paths seen
    else
      match take2Bytes line with
      | none => none
      | some status =>
        if !is_unmerged_status status then collectConflictAux rest paths seen
        else
          match parse_status_path line with
          | none => none
          | some none => collectConflictAux rest paths seen
          | some (some path) =>
            if path ∈ seen then collectConflictAux rest paths seen
            else collectConflictAux rest (paths ++ [path]) (path :: seen)

/-- `conflict_commands::collect_conflict_paths`; `none` models the
byte-slice abort. -/
def collect_conflict_paths (porcelain_status : String) :
    Option (List String) :=
  collectConflictAux (rustLines porcelain_status.data) [] []

/-- Modelled from the claim's words: the path contributed by one porcelain
line — lines whose leading two-character code is unmerged contribute
their text after the code and separator, trimmed, with surrounding
double quotes stripped. -/
def conflictLineSpec (line : List Char) : Option String :=
  match line with
  | c1 :: c2 :: _ :: rest =>
    if is_unmerged_status [c1, c2] then
      let path := stripQuotes (trimChars rest)
      if path.isEmpty then none else some (String.mk path)
    else none
  | _ => none

/-- Modelled from the claim's words: the conflict set is the per-line
paths, de-duplicated preserving first occurrence. -/
def conflict_paths_spec (porcelain_status : String) : List String :=
  (List.filterMap conflictLineSpec (rustLines porcelain_status.data)).eraseDups

/-!
Process executor and error taxonomy: `git/types.rs` (`GitError`,
`GitResponse`, `GitCommandResult`), the classification tail of
`GitExecutor::run` in `git/service.rs` (lines 121-226), and the
legacy `GitCommandService::run` classification in `git_engine.rs`
(lines 34-77).
-/

/-- `git::types::GitError`. -/
inductive GitError
  | notARepo (path : String)
  | commandError (msg : String)
  | mergeConflict
  | ioError (msg : String)
  | gitNotFound (msg : String)
  | timeout (secs : Nat)
  | invalidRepoPath (path : String)
  | unknown (msg : String)
  deriving DecidableEq, Repr

/-- `thiserror` display strings of `GitError` (used by `e.to_string()`). -/
def gitErrorToString : GitError → String
  | .notARepo p => "Not a git repository: " ++ p
  | .commandError m => "Git command failed: " ++ m
  | .mergeConflict => "Merge conflict detected"
  | .ioError m => "IO error: " ++ m
  | .gitNotFound m => "Git binary not found: " ++ m
  | .timeout n => "Command timed out after " ++ toString n ++ " seconds"
  | .invalidRepoPath p => "Invalid repository path: " ++ p
  | .unknown m => "Unknown error: " ++ m

/-- `git::types::GitResponse`. -/
structure GitResponse where
  stdout : String
  stderr : String
  exit_code : Int
  duration_ms : Nat
  deriving DecidableEq, Repr

/-- `git::types::GitCommandType`, restricted to the variant the rebase
helpers construct (the full enum also carries checkout/merge/... tags). -/
inductive GitCommandType
  | rebase
  | other
  deriving DecidableEq, Repr

/-- `git::types::GitCommandResult`. -/
structure GitCommandResult where
  success : Bool
  stdout : String
  stderr : String
  exit_code : Int
  command_type : GitCommandType
  deriving DecidableEq, Repr

/-- Classification tail of `GitExecutor::run` (service.rs lines 205-226),
as a function of the completed process observation. -/
def classifyRun (repoDisplay argsDisplay : String) (success : Bool)
    (exitCode : Int) (stdout stderr : String) (durationMs : Nat) :
    Except GitError GitResponse :=
  if success then .ok ⟨stdout, stderr, exitCode, durationMs⟩
  else if containsSeq "not a git repository".data stderr.data then
    .error (.notARepo repoDisplay)
  else if containsSeq "CONFLICT".data stderr.data
      || containsSeq "CONFLICT".data stdout.data then
    .error .mergeConflict
  else
    .error (.commandError ("git " ++ argsDisplay ++ " failed (exit "
      ++ toString exitCode ++ "): " ++ stderr))

/-- `git_engine::GitCommandError` (the variants reachable from the
classification under study). -/
inductive GitCommandError
  | invalidRepoPath (path : String)
  | notRepository (path : String)
  | mergeConflict
  | commandFailed (code : Option Int) (stderr : String)
  | io (msg : String)
  deriving DecidableEq, Repr

/-- ASCII model of Rust `str::to_lowercase`. -/
def toLowerStr (s : String) : String := String.mk (s.data.map Char.toLower)

/-- Non-success classification of `GitCommandService::run`
(git_engine.rs lines 54-67): `none` is the success path. -/
def classifyEngineRun (repoPath : String) (success : Bool)
    (code : Option Int) (_stdout stderr : String) : Option GitCommandError :=
  if success then none
  else if containsSeq "not a git repository".data (toLowerStr stderr).data then
    some (.notRepository repoPath)
  else if containsSeq "CONFLICT".data stderr.data then
    some .mergeConflict
  else
    some (.commandFailed code stderr)

/-!
Executor lifecycle: `GitExecutor::run` over an abstract observation of
the spawned process.  The `Command` builder in service.rs (lines 143-160)
never calls tokio's `kill_on_drop(true)`, so dropping the child future on
timeout leaves the process running; the second component of the result
records whether the spawned process is still running when the call
returns.
-/

/-- The `kill_on_drop` setting of the `Command` built by
`GitExecutor::run`: never enabled in the source. -/
def runKillOnDrop : Bool := false

/-- Abstract observation of one process invocation. -/
structure RunWorld where
  repoExists : Bool
  repoIsDir : Bool
  spawnOk : Bool
  spawnErrMsg : String
  finishesInTime : Bool
  ioErr : Option String
  exitSuccess : Bool
  exitCode : Option Int
  stdout : String
  stderr : String
  durationMs : Nat

/-- `GitExecutor::run` (service.rs lines 121-226): validation, spawn,
timeout race, classification; paired with whether the spawned process is
still running at return (tokio kills a dropped child only under
`kill_on_drop`). -/
def GitExecutor_run (w : RunWorld) (repoDisplay argsDisplay : String)
    (timeoutSecs : Nat) : Except GitError GitResponse × Bool :=
  if ¬(w.repoExists ∧ w.repoIsDir) then
    (.error (.invalidRepoPath repoDisplay), false)
  else if ¬ w.spawnOk then
    (.error (.ioError ("Failed to spawn git: " ++ w.spawnErrMsg)), false)
  else if ¬ w.finishesInTime then
    (.error (.timeout timeoutSecs), !runKillOnDrop)
  else
    match w.ioErr with
    | some e => (.error (.ioError ("git process IO error: " ++ e)), false)
    | none =>
      (classifyRun repoDisplay argsDisplay w.exitSuccess
        (w.exitCode.getD (-1)) w.stdout w.stderr w.durationMs, false)

/-!
Rebase run helpers: `git_run_rebase` and `git_run_rebase_with_env` from
`commands/rebase_commands.rs` (lines 8-96), as functions of the result of
the underlying executor run.
-/

/-- `rebase_commands::git_run_rebase`. -/
def git_run_rebase (runResult : Except GitError GitResponse) :
    Except String GitCommandResult :=
  match runResult with
  | .ok resp =>
    .ok ⟨decide (resp.exit_code = 0), resp.stdout, resp.stderr,
      resp.exit_code, .rebase⟩
  | .error GitError.mergeConflict =>
    .ok ⟨false, "", "CONFLICT: merge conflicts detected during rebase", 1,
      .rebase⟩
  | .error (GitError.commandError msg) =>
    .ok ⟨false, "", msg, 1, .rebase⟩
  | .error e => .error (gitErrorToString e)

/-- `rebase_commands::git_run_rebase_with_env`: the same downgrading over
the env-carrying run. -/
def git_run_rebase_with_env (runResult : Except GitError GitResponse) :
    Except String GitCommandResult :=
  match runResult with
  | .ok resp =>
    .ok ⟨decide (resp.exit_code = 0), resp.stdout, resp.stderr,
      resp.exit_code, .rebase⟩
  | .error GitError.mergeConflict =>
    .ok ⟨false, "", "CONFLICT: merge conflicts detected during rebase", 1,
      .rebase⟩
  | .error (GitError.commandError msg) =>
    .ok ⟨false, "", msg, 1, .rebase⟩
  | .error e => .error (gitErrorToString e)

/-!
Operation/conflict state detector: `detect_operation_flags`,
`cmd_check_conflict_state_impl`, `resolve_conflict_metadata` and
`cmd_get_operation_state_impl` from `commands/conflict_commands.rs`
(lines 65-73, 199-223, 225-356), over an abstract repository
observation; each modelled command also reports how many git commands
it invoked.
-/

/-- `conflict_commands::GitOperationState`. -/
structure GitOperationState where
  is_merging : Bool
  is_rebasing : Bool
  is_cherry_picking : Bool
  is_reverting : Bool
  has_conflicts : Bool
  conflict_paths : List String
  ours_commit : Option String
  ours_branch : Option String
  theirs_commit : Option String
  theirs_branch : Option String
  deriving DecidableEq, Repr

/-- Abstract observation of the repository: marker-file existence inside
`.git`, the porcelain status output (when that run succeeds), small
metadata file contents, and stdout of auxiliary read-only git runs. -/
structure RepoObs where
  pathExists : String → Bool
  statusOut : Option String
  readFileRaw : String → Option String
  runOut : List String → Option String

/-- `conflict_commands::read_git_file`: read, trim, drop empty. -/
def read_git_file (r : RepoObs) (name : String) : Option String :=
  match r.readFileRaw name with
  | none => none
  | some s =>
    let t := trimChars s.data
    if t.isEmpty then none else some (String.mk t)

/-- `conflict_commands::detect_operation_flags`. -/
def detect_operation_flags (r : RepoObs) : Bool × Bool × Bool × Bool :=
  (r.pathExists "MERGE_HEAD",
   r.pathExists "REBASE_HEAD" || r.pathExists "rebase-merge"
     || r.pathExists "rebase-apply",
   r.pathExists "CHERRY_PICK_HEAD",
   r.pathExists "REVERT_HEAD")

/-- `conflict_commands::cmd_check_conflict_state_impl`: result plus the
number of git commands invoked. -/
def cmd_check_conflict_state (r : RepoObs) : Except String Bool × Nat :=
  match detect_operation_flags r with
  | (m, rb, cp, rv) =>
    if !m && !rb && !cp && !rv then (.ok false, 0)
    else
      match r.statusOut with
      | none => (.error "git status failed", 1)
      | some out =>
        match collect_conflict_paths out with
        | none => (.error "status scan aborted", 1)
        | some ps => (.ok (!ps.isEmpty), 1)

/-- Rust `strip_prefix` on char lists. -/
def listStripPre : List Char → List Char → Option (List Char)
  | [], l => some l
  | _ :: _, [] => none
  | p :: ps, c :: cs => if p = c then listStripPre ps cs else none

/-- Text before the first occurrence of `ch` (Rust `find` + slice),
`none` when absent. -/
def takeBeforeChar (ch : Char) : List Char → Option (List Char)
  | [] => none
  | c :: cs => if c = ch then some [] else (takeBeforeChar ch cs).map (c :: ·)

/-- The single-quote character (used by merge-message parsing). -/
def quoteChar : Char := Char.ofNat 39

/-- `conflict_commands::parse_merge_branch_from_msg`. -/
def parse_merge_branch_from_msg (r : RepoObs) : Option String :=
  match read_git_file r "MERGE_MSG" with
  | none => none
  | some msg =>
    let first :=
      match listStripPre ("Merge branch ".data ++ [quoteChar]) msg.data with
      | some rest =>
        match takeBeforeChar quoteChar rest with
        | some b => some (String.mk b)
        | none => none
      | none => none
    match first with
    | some b => some b
    | none =>
      match listStripPre ("Merge remote-tracking branch ".data ++ [quoteChar])
          msg.data with
      | some rest =>
        match takeBeforeChar quoteChar rest with
        | some b => some (String.mk b)
        | none => none
      | none => none

/-- Trimmed, non-empty stdout of an auxiliary run (the
`.map(trim).filter(non-empty)` pattern). -/
def runTrimNonempty (r : RepoObs) (args : List String) : Option String :=
  match r.runOut args with
  | none => none
  | some out =>
    let t := trimChars out.data
    if t.isEmpty then none else some (String.mk t)

/-- `conflict_commands::resolve_conflict_metadata`: the four resolved
fields plus the number of git commands invoked. -/
def resolve_conflict_metadata (r : RepoObs) (m rb cp rv : Bool) :
    (Option String × Option String × Option String × Option String) × Nat :=
  if !m && !rb && !cp && !rv then ((none, none, none, none), 0)
  else
    let ours_commit := runTrimNonempty r ["rev-parse", "--short", "HEAD"]
    let ours_branch :=
      match runTrimNonempty r ["rev-parse", "--abbrev-ref", "HEAD"] with
      | some s => if s = "HEAD" then none else some s
      | none => none
    let theirsOf := fun (marker : String) =>
      match read_git_file r marker with
      | some hash => (runTrimNonempty r ["rev-parse", "--short", hash], 1)
      | none => (none, 0)
    if m then
      match theirsOf "MERGE_HEAD" with
      | (tc, k) =>
        ((ours_commit, ours_branch, tc, parse_merge_branch_from_msg r), 2 + k)
    else if rb then
      match theirsOf "REBASE_HEAD" with
      | (tc, k) =>
        let tb :=
          match read_git_file r "rebase-merge/head-name" with
          | some s =>
            match listStripPre "refs/heads/".data s.data with
            | some b => some (String.mk b)
            | none => none
          | none => none
        ((ours_commit, ours_branch, tc, tb), 2 + k)
    else if cp then
      match theirsOf "CHERRY_PICK_HEAD" with
      | (tc, k) => ((ours_commit, ours_branch, tc, none), 2 + k)
    else if rv then
      match theirsOf "REVERT_HEAD" with
      | (tc, k) => ((ours_commit, ours_branch, tc, none), 2 + k)
    else ((ours_commit, ours_branch, none, none), 2)

/-- `conflict_commands::cmd_get_operation_state_impl`: the state plus the
number of git commands invoked. -/
def cmd_get_operation_state (r : RepoObs) :
    Except String GitOperationState × Nat :=
  match detect_operation_flags r with
  | (m, rb, cp, rv) =>
    match r.statusOut with
    | none => (.error "git status failed", 1)
    | some out =>
      match collect_conflict_paths out with
      | none => (.error "status scan aborted", 1)
      | some paths =>
        match resolve_conflict_metadata r m rb cp rv with
        | ((oc, ob, tc, tb), k) =>
          (.ok ⟨m, rb, cp, rv, !paths.isEmpty, paths, oc, ob, tc, tb⟩, 1 + k)

/-- Absence of every operation marker. -/
def noMarkers (r : RepoObs) : Prop :=
  r.pathExists "MERGE_HEAD" = false ∧ r.pathExists "REBASE_HEAD" = false ∧
  r.pathExists "rebase-merge" = false ∧ r.pathExists "rebase-apply" = false ∧
  r.pathExists "CHERRY_PICK_HEAD" = false ∧ r.pathExists "REVERT_HEAD" = false

/-!
Temp-file lifecycle of the stage-line, unstage-line and
interactive-rebase-apply commands (`commands/diff_commands.rs` lines
389-527, `commands/rebase_commands.rs` lines 260-317): each model
returns the call result and the list of temporary files still existing
in the system temp directory at return.  A failed `fs::write` is taken
to leave no file; a failed `set_permissions` leaves the written file.
-/

/-- Filesystem/run observation for `cmd_rebase_interactive_apply_impl`. -/
structure ApplyFs where
  writeTodoOk : Bool
  writeScriptOk : Bool
  chmodOk : Bool
  runResult : Except GitError GitResponse

/-- Temp-file lifecycle of `cmd_rebase_interactive_apply_impl`: write the
serialized plan, write the substitute editor script, make it
executable, run the rebase through `git_run_rebase_with_env`, then
remove both files; the three setup steps return early on failure. -/
def cmd_rebase_interactive_apply (fs : ApplyFs) :
    Except String GitCommandResult × List String :=
  if ¬ fs.writeTodoOk then (.error "failed to write todo file", [])
  else if ¬ fs.writeScriptOk then
    (.error "failed to write editor script", ["todo"])
  else if ¬ fs.chmodOk then
    (.error "failed to set script permissions", ["todo", "script"])
  else
    match git_run_rebase_with_env fs.runResult with
    | .error e => (.error e, [])
    | .ok res => (.ok res, [])

/-- Filesystem/run observation for the stage/unstage-line commands. -/
structure StageFs where
  writePatchOk : Bool
  applyResult : Except GitError GitResponse

/-- Temp-file lifecycle of `cmd_git_stage_line_impl`: write the
synthesized patch, apply it, remove the patch file before propagating
the apply result. -/
def cmd_git_stage_line_files (fs : StageFs) :
    Except String Unit × List String :=
  if ¬ fs.writePatchOk then
    (.error "Failed to write temporary patch file", [])
  else
    match fs.applyResult with
    | .error e => (.error (gitErrorToString e), [])
    | .ok _ => (.ok (), [])

/-- Temp-file lifecycle of `cmd_git_unstage_line_impl` (same shape as the
stage-line command, with the reverse apply). -/
def cmd_git_unstage_line_files (fs : StageFs) :
    Except String Unit × List String :=
  if ¬ fs.writePatchOk then
    (.error "Failed to write temporary patch file", [])
  else
    match fs.applyResult with
    | .error e => (.error (gitErrorToString e), [])
    | .ok _ => (.ok (), [])

/-- C4 (amended): a detected merge conflict during any rebase step is
returned as a normal structured result with success = false (Ok, not
Err), and so is a plain command failure; a completed run maps to Ok with
success mirroring the exit code; every other error kind of the
underlying run — IO/spawn failure, timeout, invalid repository path,
not-a-repository, binary-not-found, unknown — propagates as Err (so
more than pure transport failures propagate, refuting the claim as
stated). -/

theorem rangeMod_succ (a k : Nat) :
    rangeMod a (k + 1) = rangeMod a k ++ [(a + k) % u32Mod] := by
  simp [rangeMod, List.range_succ]

theorem openHunkOk.toOk {h : DiffHunk} {o n : Nat}
    (H : openHunkOk h o n) : hunkOk h :=
  ⟨H.1, H.2.1, H.2.2.1⟩

theorem fileOk_flushHunk {f : DiffFile} {oh : Option DiffHunk} {o n : Nat}
    (hf : fileOk f) (hoh : ∀ h, oh = some h → openHunkOk h o n) :
    fileOk (flushHunk f oh) := by
  intro h hm
  simp only [flushHunk, List.mem_append] at hm
  rcases hm with hm | hm
  · exact hf h hm
  · cases oh with
    | none => simp at hm
    | some h0 =>
      simp at hm
      exact hm ▸ (hoh h0 rfl).toOk

theorem stOk_files_flush {st : DiffParseSt} (hst : stOk st) :
    ∀ f ∈ flushFile st.files st.cur st.curHunk, fileOk f := by
  obtain ⟨h1, h2, h3⟩ := hst
  intro f hm
  unfold flushFile at hm
  split at hm
  · exact h1 f hm
  · next f0 hcur =>
    simp only [List.mem_append, List.mem_singleton] at hm
    rcases hm with hm | hm
    · exact h1 f hm
    · exact hm ▸ fileOk_flushHunk (h2 f0 hcur) h3

theorem parseU32Body_lt {l : List Char} {v : Nat}
    (h : parseU32Body l = some v) : v < u32Mod := by
  unfold parseU32Body at h
  split at h
  · exact absurd h (by simp)
  · split at h
    · split at h
      · simp only [Option.some.injEq] at h
        omega
      · exact absurd h (by simp)
    · exact absurd h (by simp)

theorem parseU32_lt {l : List Char} {v : Nat} (h : parseU32 l = some v) :
    v < u32Mod := by
  unfold parseU32 at h
  split at h <;> exact parseU32Body_lt h

theorem hunkRangeStart_lt {tok : List Char} {v : Nat}
    (h : hunkRangeStart tok = some v) : v < u32Mod := by
  unfold hunkRangeStart at h
  cases hd : dropFirstByte tok with
  | none => rw [hd] at h; simp at h
  | some r =>
    rw [hd] at h
    simp only [Option.map_some', Option.some.injEq] at h
    subst h
    cases hp : parseU32 (beforeComma r) with
    | none => simp [hp, u32Mod]
    | some w => simp only [hp, Option.getD_some]; exact parseU32_lt hp

theorem cursorStep {a k n : Nat} (hN : n = (a + k) % u32Mod) :
    (n + 1) % u32Mod = (a + (k + 1)) % u32Mod := by
  rw [hN, Nat.mod_add_mod, Nat.add_assoc]

theorem openHunkOk_pushAdd {hk : DiffHunk} {o n : Nat}
    (H : openHunkOk hk o n) (c : String) :
    openHunkOk { hk with lines := hk.lines ++ [⟨.add, c, none, some n⟩] }
      o ((n + 1) % u32Mod) := by
  obtain ⟨hl, hON, hNN, hO, hN⟩ := H
  refine ⟨?_, ?_, ?_, ?_, ?_⟩
  · intro l hm
    rcases List.mem_append.1 hm with hm | hm
    · exact hl l hm
    · simp only [List.mem_singleton] at hm
      subst hm
      simp [lineFieldsOk]
  · simpa [hunkOldNums, List.filterMap_append] using hON
  · simp only [hunkNewNums, List.filterMap_append] at *
    simp only [List.filterMap, Option.some.injEq]
    rw [List.length_append, List.length_singleton, rangeMod_succ, ← hNN, ← hN]
  · simpa [hunkOldNums, List.filterMap_append] using hO
  · simp only [hunkNewNums, List.filterMap_append, List.length_append] at *
    exact cursorStep hN

theorem openHunkOk_pushRem {hk : DiffHunk} {o n : Nat}
    (H : openHunkOk hk o n) (c : String) :
    openHunkOk { hk with lines := hk.lines ++ [⟨.remove, c, some o, none⟩] }
      ((o + 1) % u32Mod) n := by
  obtain ⟨hl, hON, hNN, hO, hN⟩ := H
  refine ⟨?_, ?_, ?_, ?_, ?_⟩
  · intro l hm
    rcases List.mem_append.1 hm with hm | hm
    · exact hl l hm
    · simp only [List.mem_singleton] at hm
      subst hm
      simp [lineFieldsOk]
  · simp only [hunkOldNums, List.filterMap_append] at *
    simp only [List.filterMap, Option.some.injEq]
    rw [List.length_append, List.length_singleton, rangeMod_succ, ← hON, ← hO]
  · simpa [hunkNewNums, List.filterMap_append] using hNN
  · simp only [hunkOldNums, List.filterMap_append, List.length_append] at *
    exact cursorStep hO
  · simpa [hunkNewNums, List.filterMap_append] using hN

theorem openHunkOk_pushCtx {hk : DiffHunk} {o n : Nat}
    (H : openHunkOk hk o n) (c : String) :
    openHunkOk { hk with lines := hk.lines ++ [⟨.context, c, some o, some n⟩] }
      ((o + 1) % u32Mod) ((n + 1) % u32Mod) := by
  obtain ⟨hl, hON, hNN, hO, hN⟩ := H
  refine ⟨?_, ?_, ?_, ?_, ?_⟩
  · intro l hm
    rcases List.mem_append.1 hm with hm | hm
    · exact hl l hm
    · simp only [List.mem_singleton] at hm
      subst hm
      simp [lineFieldsOk]
  · simp only [hunkOldNums, List.filterMap_append] at *
    simp only [List.filterMap, Option.some.injEq]
    rw [List.length_append, List.length_singleton, rangeMod_succ, ← hON, ← hO]
  · simp only [hunkNewNums, List.filterMap_append] at *
    simp only [List.filterMap, Option.some.injEq]
    rw [List.length_append, List.length_singleton, rangeMod_succ, ← hNN, ← hN]
  · simp only [hunkOldNums, List.filterMap_append, List.length_append] at *
    exact cursorStep hO
  · simp only [hunkNewNums, List.filterMap_append, List.length_append] at *
    exact cursorStep hN

theorem stepHunkHeader_ok {st st' : DiffParseSt} {f : DiffFile}
    {line : List Char} (hst : stOk st) (hcureq : st.cur = some f)
    (h : stepHunkHeader st f line = some st') : stOk st' := by
  obtain ⟨hfs, hcur, hopen⟩ := hst
  unfold stepHunkHeader at h
  split at h
  · split at h
    · next o n ho hn =>
      cases h
      refine ⟨hfs, ?_, ?_⟩
      · intro f0 hf0
        cases hf0
        exact fileOk_flushHunk (hcur f hcureq) hopen
      · intro hk hm
        cases hm
        refine ⟨?_, rfl, rfl, ?_, ?_⟩
        · intro l hl
          simp at hl
        · simpa [hunkOldNums, rangeMod] using
            (Nat.mod_eq_of_lt (hunkRangeStart_lt ho)).symm
        · simpa [hunkNewNums, rangeMod] using
            (Nat.mod_eq_of_lt (hunkRangeStart_lt hn)).symm
    · cases h
  · cases h
    refine ⟨hfs, ?_, ?_⟩
    · intro f0 hf0
      cases hf0
      exact fileOk_flushHunk (hcur f hcureq) hopen
    · intro hk hm
      cases hm

theorem stepHunkLine_ok {st : DiffParseSt} {line : List Char}
    (hst : stOk st) : stOk (stepHunkLine st line) := by
  obtain ⟨hfs, hcur, hopen⟩ := hst
  unfold stepHunkLine
  split
  · exact ⟨hfs, hcur, hopen⟩
  · next hk hhk =>
    split_ifs with g1 g2 g3
    · refine ⟨hfs, hcur, ?_⟩
      intro hk0 hm
      cases hm
      exact openHunkOk_pushAdd (hopen hk hhk) _
    · refine ⟨hfs, hcur, ?_⟩
      intro hk0 hm
      cases hm
      exact openHunkOk_pushRem (hopen hk hhk) _
    · refine ⟨hfs, hcur, ?_⟩
      intro hk0 hm
      cases hm
      exact openHunkOk_pushCtx (hopen hk hhk) _
    · exact ⟨hfs, hcur, hopen⟩

theorem stepInFile_ok {st st' : DiffParseSt} {f : DiffFile}
    {line : List Char} (hst : stOk st) (hcureq : st.cur = some f)
    (h : stepInFile st f line = some st') : stOk st' := by
  obtain ⟨hfs, hcur, hopen⟩ := hst
  unfold stepInFile at h
  split_ifs at h with h1 h2 h3 h4 h5 h6
  · cases h
    refine ⟨hfs, ?_, hopen⟩
    intro f0 hf0
    cases hf0
    exact hcur f hcureq
  · cases h
    refine ⟨hfs, ?_, hopen⟩
    intro f0 hf0
    cases hf0
    exact hcur f hcureq
  · cases h
    refine ⟨hfs, ?_, hopen⟩
    intro f0 hf0
    cases hf0
    exact hcur f hcureq
  · cases h
    exact ⟨hfs, hcur, hopen⟩
  · cases h
    exact ⟨hfs, hcur, hopen⟩
  · exact stepHunkHeader_ok ⟨hfs, hcur, hopen⟩ hcureq h
  · cases h
    exact stepHunkLine_ok ⟨hfs, hcur, hopen⟩

theorem parseDiffStep_ok {st st' : DiffParseSt} {line : List Char}
    (hst : stOk st) (h : parseDiffStep st line = some st') : stOk st' := by
  obtain ⟨hfs, hcur, hopen⟩ := hst
  unfold parseDiffStep at h
  split at h
  · cases h
    refine ⟨stOk_files_flush ⟨hfs, hcur, hopen⟩, ?_, ?_⟩
    · intro f hf
      simp only [stepFileStart, Option.some.injEq] at hf
      subst hf
      intro hk hm
      simp at hm
    · intro hk hm
      simp [stepFileStart] at hm
  · split at h
    · cases h
      exact ⟨hfs, hcur, hopen⟩
    · next f hcureq =>
      exact stepInFile_ok ⟨hfs, hcur, hopen⟩ hcureq h

theorem diffParseInit_ok : stOk diffParseInit := by
  refine ⟨?_, ?_, ?_⟩
  · intro f hf
    simp [diffParseInit] at hf
  · intro f hf
    simp [diffParseInit] at hf
  · intro hk hm
    simp [diffParseInit] at hm

theorem foldlM_stOk :
    ∀ (ls : List (List Char)) (st st' : DiffParseSt), stOk st →
    List.foldlM parseDiffStep st ls = some st' → stOk st' := by
  intro ls
  induction ls with
  | nil =>
    intro st st' h hf
    simp only [List.foldlM_nil, Option.pure_def, Option.some.injEq] at hf
    exact hf ▸ h
  | cons l ls ih =>
    intro st st' h hf
    rw [List.foldlM_cons] at hf
    cases hs : parseDiffStep st l with
    | none =>
      rw [hs] at hf
      simp at hf
    | some st1 =>
      rw [hs] at hf
      simp only [Option.bind_eq_bind, Option.some_bind] at hf
      exact ih st1 st' (parseDiffStep_ok h hs) hf

theorem parse_diff_output_ok {s : String} {fs : List DiffFile}
    (h : parse_diff_output s = some fs) : ∀ f ∈ fs, fileOk f := by
  unfold parse_diff_output at h
  cases hf : List.foldlM parseDiffStep diffParseInit (rustLines s.data) with
  | none =>
    rw [hf] at h
    simp at h
  | some st =>
    rw [hf] at h
    simp only [Option.map_some', Option.some.injEq] at h
    subst h
    exact stOk_files_flush (foldlM_stOk _ _ _ diffParseInit_ok hf)

theorem chainLtRange' (a k : Nat) :
    List.Chain' (· < ·) (List.range' a k) := by
  induction k generalizing a with
  | zero => simp
  | succ k ih =>
    cases k with
    | zero => simp
    | succ k0 =>
      refine List.chain'_cons'.2 ⟨?_, ih (a + 1)⟩
      intro b hb
      simp only [List.range', List.head?_cons, Option.mem_def,
        Option.some.injEq] at hb
      omega

theorem rangeMod_eq_range' {a k : Nat} (hb : a + k ≤ u32Mod) :
    rangeMod a k = List.range' a k := by
  unfold rangeMod
  rw [List.range'_eq_map_range]
  apply List.map_congr_left
  intro i hi
  simp only [List.mem_range] at hi
  exact Nat.mod_eq_of_lt (by omega)

theorem rangeMod_chain {a k : Nat} (hb : a + k ≤ u32Mod) :
    List.Chain' (· < ·) (rangeMod a k) := by
  rw [rangeMod_eq_range' hb]
  exact chainLtRange' a k

/-- C2 (amended): every parsed line has the kind/field invariant (Add has
only a new number, Remove only an old number, Context both); within each
hunk the stamped old and new numbers are exactly consecutive counter
values from the declared starts reduced modulo `2 ^ 32`, hence
monotonically increasing whenever the counter does not wrap around
`2 ^ 32` (the `u32` overflow case refuted by the counterexample). -/
theorem parse_diff_output_line_number_invariants :
    ∀ (s : String) (fs : List DiffFile), parse_diff_output s = some fs →
    ∀ f ∈ fs, ∀ h ∈ f.hunks,
      (∀ l ∈ h.lines, lineFieldsOk l) ∧
      hunkOldNums h = rangeMod h.old_start (hunkOldNums h).length ∧
      hunkNewNums h = rangeMod h.new_start (hunkNewNums h).length ∧
      (h.old_start + (hunkOldNums h).length ≤ u32Mod →
        List.Chain' (· < ·) (hunkOldNums h)) ∧
      (h.new_start + (hunkNewNums h).length ≤ u32Mod →
        List.Chain' (· < ·) (hunkNewNums h)) := by
  intro s fs hp f hf h hh
  obtain ⟨h1, h2, h3⟩ := parse_diff_output_ok hp f hf h hh
  refine ⟨h1, h2, h3, ?_, ?_⟩
  · intro hb
    rw [h2]
    exact rangeMod_chain (by omega)
  · intro hb
    rw [h3]
    exact rangeMod_chain (by omega)

/-- C2 witness: a well-formed one-hunk diff satisfies the invariants, with
strictly increasing old and new numbers. -/
theorem parse_diff_output_line_number_invariants_witness :
    parse_diff_output "diff --git a/y b/y\n--- a/y\n+++ b/y\n@@ -3,1 +4,1 @@\n-old\n+new\n"
      = some [⟨"y", "M", [⟨3, 4, [⟨.remove, "old", some 3, none⟩,
          ⟨.add, "new", none, some 4⟩]⟩]⟩] ∧
    List.Chain' (· < ·) (hunkOldNums ⟨3, 4, [⟨.remove, "old", some 3, none⟩,
      ⟨.add, "new", none, some 4⟩]⟩) ∧
    List.Chain' (· < ·) (hunkNewNums ⟨3, 4, [⟨.remove, "old", some 3, none⟩,
      ⟨.add, "new", none, some 4⟩]⟩) := by
  have H := parse_diff_output_line_number_invariants
    "diff --git a/y b/y\n--- a/y\n+++ b/y\n@@ -3,1 +4,1 @@\n-old\n+new\n"
    [⟨"y", "M", [⟨3, 4, [⟨.remove, "old", some 3, none⟩,
      ⟨.add, "new", none, some 4⟩]⟩]⟩] (by decide)
    ⟨"y", "M", [⟨3, 4, [⟨.remove, "old", some 3, none⟩,
      ⟨.add, "new", none, some 4⟩]⟩]⟩ (by decide)
    ⟨3, 4, [⟨.remove, "old", some 3, none⟩,
      ⟨.add, "new", none, some 4⟩]⟩ (by decide)
  exact ⟨by decide, H.2.2.2.1 (by decide), H.2.2.2.2 (by decide)⟩

/-- C2 counterexample: a hunk header declaring old start `4294967295`
(`u32::MAX`) makes the old counter wrap to `0` on the second removed
line, so the stamped old numbers `[4294967295, 0]` are not monotonically
increasing. -/
theorem parse_diff_output_wraparound_cex :
    parse_diff_output "diff --git a/x b/x\n@@ -4294967295,2 +1,0 @@\n-a\n-b\n"
      = some [⟨"x", "M", [⟨4294967295, 1,
          [⟨.remove, "a", some 4294967295, none⟩,
           ⟨.remove, "b", some 0, none⟩]⟩]⟩] ∧
    hunkOldNums ⟨4294967295, 1,
        [⟨.remove, "a", some 4294967295, none⟩,
         ⟨.remove, "b", some 0, none⟩]⟩ = [4294967295, 0] ∧
    ¬ List.Chain' (· < ·) [4294967295, 0] := by
  refine ⟨by decide, by decide, ?_⟩
  intro hc
  have h0 := (List.chain'_cons.1 hc).1
  omega

/-- C9: the example diff text parses to exactly one file `x` with one hunk
holding one Add line `hello` stamped with new line number 1. -/
theorem parse_diff_output_single_add_example :
    parse_diff_output "diff --git a/x b/x\n--- a/x\n+++ b/x\n@@ -1,0 +1,1 @@\n+hello\n"
      = some [⟨"x", "M", [⟨1, 1, [⟨.add, "hello", none, some 1⟩]⟩]⟩] := by
  decide

theorem parseDiffStep_isSome {st : DiffParseSt} {line : List Char}
    (hc : hunkHeaderSliceOk line = true) :
    ∃ st', parseDiffStep st line = some st' := by
  unfold parseDiffStep
  split
  · exact ⟨_, rfl⟩
  · split
    · exact ⟨_, rfl⟩
    · next f hcur =>
      unfold stepInFile
      split_ifs with h1 h2 h3 h4 h5 h6
      · exact ⟨_, rfl⟩
      · exact ⟨_, rfl⟩
      · exact ⟨_, rfl⟩
      · exact ⟨_, rfl⟩
      · exact ⟨_, rfl⟩
      · unfold hunkHeaderSliceOk at hc
        rw [h6] at hc
        simp only [Bool.not_true, Bool.false_or] at hc
        unfold stepHunkHeader
        cases hsw : splitWs line with
        | nil => exact ⟨_, rfl⟩
        | cons p0 t0 =>
          cases t0 with
          | nil => exact ⟨_, rfl⟩
          | cons p1 t1 =>
            cases t1 with
            | nil => exact ⟨_, rfl⟩
            | cons p2 t2 =>
              rw [hsw] at hc
              simp only [Bool.and_eq_true, Option.isSome_iff_exists] at hc
              obtain ⟨⟨r1, hr1⟩, ⟨r2, hr2⟩⟩ := hc
              dsimp only
              unfold hunkRangeStart
              rw [hr1, hr2]
              exact ⟨_, rfl⟩
      · exact ⟨_, rfl⟩

theorem foldlM_parseDiffStep_isSome :
    ∀ (ls : List (List Char)) (st : DiffParseSt),
    (∀ l ∈ ls, hunkHeaderSliceOk l = true) →
    ∃ st', List.foldlM parseDiffStep st ls = some st' := by
  intro ls
  induction ls with
  | nil =>
    intro st _
    exact ⟨st, rfl⟩
  | cons l ls ih =>
    intro st hl
    obtain ⟨st1, hst1⟩ := @parseDiffStep_isSome st l (hl l (by simp))
    obtain ⟨st', hst'⟩ := ih st1 (fun l' hl' => hl l' (by simp [hl']))
    refine ⟨st', ?_⟩
    rw [List.foldlM_cons, hst1]
    simpa using hst'

theorem parseDiffStep_init_skip {l : List Char}
    (hl : listIsPre "diff --git".data l = false) :
    parseDiffStep diffParseInit l = some diffParseInit := by
  unfold parseDiffStep
  rw [hl]
  simp [diffParseInit]

theorem foldlM_parseDiffStep_discard :
    ∀ (pre rest : List (List Char)),
    (∀ l ∈ pre, listIsPre "diff --git".data l = false) →
    List.foldlM parseDiffStep diffParseInit (pre ++ rest)
      = List.foldlM parseDiffStep diffParseInit rest := by
  intro pre
  induction pre with
  | nil => simp
  | cons l pre ih =>
    intro rest hl
    rw [List.cons_append, List.foldlM_cons,
      parseDiffStep_init_skip (hl l (by simp))]
    simpa using ih rest (fun l' hl' => hl l' (by simp [hl']))

theorem parseDiffStep_short_header {st : DiffParseSt} {f : DiffFile}
    {line : List Char} (hcur : st.cur = some f)
    (hat : listIsPre "@@".data line = true)
    (hlen : (splitWs line).length < 3) :
    parseDiffStep st line
      = some { st with cur := some (flushHunk f st.curHunk),
                       curHunk := none } := by
  obtain ⟨cs, rfl⟩ : ∃ cs, line = '@' :: cs := by
    cases line with
    | nil => exact absurd hat (by decide)
    | cons c cs =>
      have hce : ('@' = c) := by
        have h0 := hat
        rw [show ("@@".data : List Char) = ['@', '@'] from rfl] at h0
        simp only [listIsPre, Bool.and_eq_true, decide_eq_true_eq] at h0
        exact h0.1
      exact ⟨cs, by rw [← hce]⟩
  unfold parseDiffStep stepInFile
  simp only [show listIsPre "diff --git".data ('@' :: cs) = false from rfl,
    show listIsPre "new file mode".data ('@' :: cs) = false from rfl,
    show listIsPre "deleted file mode".data ('@' :: cs) = false from rfl,
    show listIsPre "rename from".data ('@' :: cs) = false from rfl,
    show listIsPre "index".data ('@' :: cs) = false from rfl,
    show listIsPre "---".data ('@' :: cs) = false from rfl,
    show listIsPre "+++".data ('@' :: cs) = false from rfl,
    show listIsPre "Binary files".data ('@' :: cs) = false from rfl,
    hat, hcur, Bool.or_self, Bool.or_false, Bool.false_or,
    Bool.false_eq_true, if_false, if_true, ite_true, ite_false]
  unfold stepHunkHeader
  cases hsw : splitWs ('@' :: cs) with
  | nil => rfl
  | cons p0 t0 =>
    cases t0 with
    | nil => rfl
    | cons p1 t1 =>
      cases t1 with
      | nil => rfl
      | cons p2 t2 =>
        rw [hsw] at hlen
        simp at hlen
        omega

theorem parseDiffStep_no_open_hunk_drop {st : DiffParseSt} {f : DiffFile}
    {c : Char} {cs : List Char} (hcur : st.cur = some f)
    (hh : st.curHunk = none) (hc : c = '+' ∨ c = '-' ∨ c = ' ') :
    parseDiffStep st (c :: cs) = some st := by
  rcases hc with rfl | rfl | rfl
  · unfold parseDiffStep stepInFile
    simp only [show listIsPre "diff --git".data ('+' :: cs) = false from rfl,
      show listIsPre "new file mode".data ('+' :: cs) = false from rfl,
      show listIsPre "deleted file mode".data ('+' :: cs) = false from rfl,
      show listIsPre "rename from".data ('+' :: cs) = false from rfl,
      show listIsPre "index".data ('+' :: cs) = false from rfl,
      show listIsPre "---".data ('+' :: cs) = false from rfl,
      show listIsPre "Binary files".data ('+' :: cs) = false from rfl,
      show listIsPre "@@".data ('+' :: cs) = false from rfl,
      hcur, Bool.false_or, Bool.or_false,
      Bool.false_eq_true, if_false, ite_false]
    by_cases hp : listIsPre "+++".data ('+' :: cs) = true
    · simp only [hp, if_true, ite_true]
    · simp only [Bool.not_eq_true] at hp
      simp only [hp, Bool.false_eq_true, if_false, ite_false]
      unfold stepHunkLine
      rw [hh]
  · unfold parseDiffStep stepInFile
    simp only [show listIsPre "diff --git".data ('-' :: cs) = false from rfl,
      show listIsPre "new file mode".data ('-' :: cs) = false from rfl,
      show listIsPre "deleted file mode".data ('-' :: cs) = false from rfl,
      show listIsPre "rename from".data ('-' :: cs) = false from rfl,
      show listIsPre "index".data ('-' :: cs) = false from rfl,
      show listIsPre "+++".data ('-' :: cs) = false from rfl,
      show listIsPre "Binary files".data ('-' :: cs) = false from rfl,
      show listIsPre "@@".data ('-' :: cs) = false from rfl,
      hcur, Bool.false_or, Bool.or_false,
      Bool.false_eq_true, if_false, ite_false]
    by_cases hp : listIsPre "---".data ('-' :: cs) = true
    · simp only [hp, if_true, ite_true]
    · simp only [Bool.not_eq_true] at hp
      simp only [hp, Bool.false_eq_true, if_false, ite_false]
      unfold stepHunkLine
      rw [hh]
  · unfold parseDiffStep stepInFile
    simp only [show listIsPre "diff --git".data (' ' :: cs) = false from rfl,
      show listIsPre "new file mode".data (' ' :: cs) = false from rfl,
      show listIsPre "deleted file mode".data (' ' :: cs) = false from rfl,
      show listIsPre "rename from".data (' ' :: cs) = false from rfl,
      show listIsPre "index".data (' ' :: cs) = false from rfl,
      show listIsPre "---".data (' ' :: cs) = false from rfl,
      show listIsPre "+++".data (' ' :: cs) = false from rfl,
      show listIsPre "Binary files".data (' ' :: cs) = false from rfl,
      show listIsPre "@@".data (' ' :: cs) = false from rfl,
      hcur, Bool.or_self, Bool.false_or, Bool.or_false,
      Bool.false_eq_true, if_false, ite_false]
    unfold stepHunkLine
    rw [hh]

/-- C10 (amended): the diff parser reports no error and returns a list of
files for every input in which each hunk-header line's second and third
whitespace tokens begin with a single-byte character (without that
proviso the byte slice `parts[i][1..]` aborts, as the counterexample
shows); content before the first `diff --git` line is discarded without
producing a file; an `@@` line with fewer than three whitespace tokens
opens no hunk; and `+`/`-`/space lines with no open hunk are dropped. -/
theorem parse_diff_output_totality_properties :
    (∀ s : String, (∀ l ∈ rustLines s.data, hunkHeaderSliceOk l = true) →
      ∃ fs, parse_diff_output s = some fs) ∧
    (∀ pre rest : List (List Char),
      (∀ l ∈ pre, listIsPre "diff --git".data l = false) →
      List.foldlM parseDiffStep diffParseInit (pre ++ rest)
        = List.foldlM parseDiffStep diffParseInit rest) ∧
    (∀ (st : DiffParseSt) (f : DiffFile) (line : List Char),
      st.cur = some f → listIsPre "@@".data line = true →
      (splitWs line).length < 3 →
      parseDiffStep st line
        = some { st with cur := some (flushHunk f st.curHunk),
                         curHunk := none }) ∧
    (∀ (st : DiffParseSt) (f : DiffFile) (c : Char) (cs : List Char),
      st.cur = some f → st.curHunk = none → (c = '+' ∨ c = '-' ∨ c = ' ') →
      parseDiffStep st (c :: cs) = some st) := by
  refine ⟨?_, foldlM_parseDiffStep_discard, ?_, ?_⟩
  · intro s hls
    unfold parse_diff_output
    obtain ⟨st', hst'⟩ :=
      foldlM_parseDiffStep_isSome (rustLines s.data) diffParseInit hls
    rw [hst']
    exact ⟨_, rfl⟩
  · intro st f line h1 h2 h3
    exact parseDiffStep_short_header h1 h2 h3
  · intro st f c cs h1 h2 h3
    exact parseDiffStep_no_open_hunk_drop h1 h2 h3

/-- C10 witness: totality on a plain input, discard of a leading junk line,
a two-token hunk header opening no hunk, and a `+` line dropped when no
hunk is open. -/
theorem parse_diff_output_totality_properties_witness :
    (∃ fs, parse_diff_output "hello\n" = some fs) ∧
    List.foldlM parseDiffStep diffParseInit
        (["junk".data] ++ ["diff --git a/x b/x".data])
      = List.foldlM parseDiffStep diffParseInit ["diff --git a/x b/x".data] ∧
    parseDiffStep ⟨[], some ⟨"x", "M", []⟩, none, 0, 0⟩ "@@ zz".data
      = some ⟨[], some ⟨"x", "M", []⟩, none, 0, 0⟩ ∧
    parseDiffStep ⟨[], some ⟨"x", "M", []⟩, none, 0, 0⟩ ('+' :: "zz".data)
      = some ⟨[], some ⟨"x", "M", []⟩, none, 0, 0⟩ := by
  obtain ⟨H1, H2, H3, H4⟩ := parse_diff_output_totality_properties
  exact ⟨H1 "hello\n" (by decide), H2 _ _ (by decide),
    H3 _ ⟨"x", "M", []⟩ _ rfl (by decide) (by decide),
    H4 _ ⟨"x", "M", []⟩ _ _ rfl rfl (by simp)⟩

/-- C10 counterexample: a hunk header whose range tokens begin with the
two-byte character `¢` makes the byte slice `parts[1][1..]` abort, so the
parser is not total on arbitrary input. -/
theorem parse_diff_output_abort_cex :
    parse_diff_output "diff --git a/x b/x\n@@ ¢ ¢ @@\n" = none := by
  decide

theorem findLineInHunk_spec {n : Nat} {t : ParsedPatchLineKind}
    {ls : List ParsedPatchLine} {l : ParsedPatchLine}
    (h : findLineInHunk n t ls = some l) :
    l.kind = t ∧ lineMatches l n t = true := by
  induction ls with
  | nil => simp [findLineInHunk] at h
  | cons l0 rest ih =>
    unfold findLineInHunk at h
    split at h
    · next hcond =>
      cases h
      simp only [Bool.and_eq_true, decide_eq_true_eq] at hcond
      exact hcond
    · exact ih h

theorem lookupLineAux_spec {n : Nat} {t : ParsedPatchLineKind} {idx i : Nat}
    {hunks : List ParsedPatchHunk} {l : ParsedPatchLine}
    (h : lookupLineAux n t idx hunks = .ok (i, l)) :
    l.kind = t ∧ lineMatches l n t = true := by
  induction hunks generalizing idx with
  | nil => simp [lookupLineAux] at h
  | cons h0 rest ih =>
    unfold lookupLineAux at h
    cases hf : findLineInHunk n t h0.lines with
    | some l0 =>
      rw [hf] at h
      simp only [Except.ok.injEq, Prod.mk.injEq] at h
      exact h.2 ▸ findLineInHunk_spec hf
    | none =>
      rw [hf] at h
      exact ih h

theorem lookup_line_spec {p : ParsedUnstagedPatch} {n : Nat}
    {t : ParsedPatchLineKind} {i : Nat} {l : ParsedPatchLine}
    (h : lookup_line_in_patch p n t = .ok (i, l)) :
    l.kind = t ∧ lineMatches l n t = true :=
  lookupLineAux_spec h

theorem lookup_remove_old_line {p : ParsedUnstagedPatch} {n : Nat} {i : Nat}
    {l : ParsedPatchLine}
    (h : lookup_line_in_patch p n ParsedPatchLineKind.remove = .ok (i, l)) :
    l.old_line = some n := by
  have hm := (lookup_line_spec h).2
  simpa [lineMatches] using hm

theorem lookup_add_new_line {p : ParsedUnstagedPatch} {n : Nat} {i : Nat}
    {l : ParsedPatchLine}
    (h : lookup_line_in_patch p n ParsedPatchLineKind.add = .ok (i, l)) :
    l.new_line = some n := by
  have hm := (lookup_line_spec h).2
  simpa [lineMatches] using hm

/-- C1: whenever `build_stage_line_patch` accepts a selection, the
synthesized hunk header carries count 0 on the absent side and count 1 on
each present side: a paired modification yields `@@ -old,1 +new,1 @@`
with a `-` and a `+` line, a pure deletion `@@ -old,1 +new_anchor,0 @@`
with the found Remove line's content, a pure insertion
`@@ -old_anchor,0 +new,1 @@` with the found Add line's content, and the
empty selection is never accepted; the spec's concrete scenario
(selection old 5, Remove line at old 5 with new_anchor 7) synthesizes
`@@ -5,1 +7,0 @@` followed by the single `-` line. -/
theorem build_stage_line_patch_header_counts :
    (∀ (p : ParsedUnstagedPatch) (sel : StageLineSelection) (out : String),
      build_stage_line_patch p sel = .ok out →
      (∀ oln nln, sel = ⟨some oln, some nln⟩ →
        ∀ ri rl ai al,
          lookup_line_in_patch p oln ParsedPatchLineKind.remove
            = .ok (ri, rl) →
          lookup_line_in_patch p nln ParsedPatchLineKind.add = .ok (ai, al) →
          out = String.intercalate "\n" (p.header_lines ++
            ["@@ -" ++ toString oln ++ ",1 +" ++ toString nln ++ ",1 @@",
             "-" ++ rl.content, "+" ++ al.content]) ++ "\n") ∧
      (∀ oln, sel = ⟨some oln, none⟩ →
        ∀ ri rl,
          lookup_line_in_patch p oln ParsedPatchLineKind.remove
            = .ok (ri, rl) →
          out = String.intercalate "\n" (p.header_lines ++
            ["@@ -" ++ toString oln ++ ",1 +" ++ toString rl.new_anchor
               ++ ",0 @@",
             "-" ++ rl.content]) ++ "\n") ∧
      (∀ nln, sel = ⟨none, some nln⟩ →
        ∀ ai al,
          lookup_line_in_patch p nln ParsedPatchLineKind.add = .ok (ai, al) →
          out = String.intercalate "\n" (p.header_lines ++
            ["@@ -" ++ toString al.old_anchor ++ ",0 +" ++ toString nln
               ++ ",1 @@",
             "+" ++ al.content]) ++ "\n") ∧
      sel ≠ ⟨none, none⟩) ∧
    parse_unstaged_zero_context_diff
        "diff --git a/f b/f\n--- a/f\n+++ b/f\n@@ -2,0 +3,2 @@\n+x\n+y\n@@ -5,1 +7,0 @@\n-content\n"
      = .ok ⟨["diff --git a/f b/f", "--- a/f", "+++ b/f"],
          [⟨[⟨.add, "x", none, some 3, 2, 3⟩, ⟨.add, "y", none, some 4, 2, 4⟩]⟩,
           ⟨[⟨.remove, "content", some 5, none, 5, 7⟩]⟩]⟩ ∧
    build_stage_line_patch
        ⟨["diff --git a/f b/f", "--- a/f", "+++ b/f"],
          [⟨[⟨.add, "x", none, some 3, 2, 3⟩, ⟨.add, "y", none, some 4, 2, 4⟩]⟩,
           ⟨[⟨.remove, "content", some 5, none, 5, 7⟩]⟩]⟩
        ⟨some 5, none⟩
      = .ok "diff --git a/f b/f\n--- a/f\n+++ b/f\n@@ -5,1 +7,0 @@\n-content\n" := by
  refine ⟨?_, ?_, by rfl⟩
  case refine_2 =>
    simp [parse_unstaged_zero_context_diff, collectHunks, parse_diff_header,
      parseDiffHeaderAux, parse_hunk_lines, parseHunkBody, parse_hunk_range,
      splitFirstComma, rustLines, splitNl, stripCr, listIsPre, splitWs,
      splitWsAux, isWsChar, parseU32, parseU32Body, digitsVal, u32Mod,
      Bind.bind, Except.bind, List.drop]
  intro p sel out hok
  refine ⟨?_, ?_, ?_, ?_⟩
  · intro oln nln hsel ri rl ai al hlr hla
    subst hsel
    unfold build_stage_line_patch at hok
    dsimp only at hok
    rw [hlr, hla] at hok
    have hol : rl.old_line = some oln := lookup_remove_old_line hlr
    have hnl : al.new_line = some nln := lookup_add_new_line hla
    simp only [Bind.bind, Except.bind, hol, hnl] at hok
    split at hok
    · simp at hok
    · simp only [Except.ok.injEq] at hok
      exact hok.symm
  · intro oln hsel ri rl hlr
    subst hsel
    unfold build_stage_line_patch at hok
    dsimp only at hok
    rw [hlr] at hok
    have hol : rl.old_line = some oln := lookup_remove_old_line hlr
    simp only [Bind.bind, Except.bind, hol] at hok
    simp only [Except.ok.injEq] at hok
    exact hok.symm
  · intro nln hsel ai al hla
    subst hsel
    unfold build_stage_line_patch at hok
    dsimp only at hok
    rw [hla] at hok
    have hnl : al.new_line = some nln := lookup_add_new_line hla
    simp only [Bind.bind, Except.bind, hnl] at hok
    simp only [Except.ok.injEq] at hok
    exact hok.symm
  · intro hsel
    subst hsel
    unfold build_stage_line_patch at hok
    simp at hok

/-- C1 witness: the pure-deletion case applied to the concrete parsed
patch of the spec scenario. -/
theorem build_stage_line_patch_header_counts_witness :
    build_stage_line_patch
        ⟨["diff --git a/f b/f", "--- a/f", "+++ b/f"],
          [⟨[⟨.add, "x", none, some 3, 2, 3⟩, ⟨.add, "y", none, some 4, 2, 4⟩]⟩,
           ⟨[⟨.remove, "content", some 5, none, 5, 7⟩]⟩]⟩
        ⟨some 5, none⟩
      = .ok "diff --git a/f b/f\n--- a/f\n+++ b/f\n@@ -5,1 +7,0 @@\n-content\n" ∧
    "diff --git a/f b/f\n--- a/f\n+++ b/f\n@@ -5,1 +7,0 @@\n-content\n"
      = String.intercalate "\n"
          ((⟨["diff --git a/f b/f", "--- a/f", "+++ b/f"],
            [⟨[⟨.add, "x", none, some 3, 2, 3⟩,
               ⟨.add, "y", none, some 4, 2, 4⟩]⟩,
             ⟨[⟨.remove, "content", some 5, none, 5, 7⟩]⟩]⟩ :
              ParsedUnstagedPatch).header_lines ++
           ["@@ -" ++ toString (5 : Nat) ++ ",1 +" ++ toString (7 : Nat)
              ++ ",0 @@",
            "-" ++ "content"]) ++ "\n" := by
  have H := (build_stage_line_patch_header_counts.1
    ⟨["diff --git a/f b/f", "--- a/f", "+++ b/f"],
      [⟨[⟨.add, "x", none, some 3, 2, 3⟩, ⟨.add, "y", none, some 4, 2, 4⟩]⟩,
       ⟨[⟨.remove, "content", some 5, none, 5, 7⟩]⟩]⟩
    ⟨some 5, none⟩
    "diff --git a/f b/f\n--- a/f\n+++ b/f\n@@ -5,1 +7,0 @@\n-content\n"
    (by rfl)).2.1 5 rfl 1 ⟨.remove, "content", some 5, none, 5, 7⟩ (by rfl)
  exact ⟨by rfl, H⟩

theorem byteLen_cons (c : Char) (l : List Char) :
    byteLen (c :: l) = c.utf8Size + byteLen l := by
  simp [byteLen]

theorem byteLen_eq_zero {l : List Char} (h : byteLen l = 0) : l = [] := by
  cases l with
  | nil => rfl
  | cons c rest =>
    rw [byteLen_cons] at h
    have := Char.utf8Size_pos c
    omega

theorem take2Bytes_eq {line status : List Char}
    (h : take2Bytes line = some status) :
    (∃ c1 c2 rest, line = c1 :: c2 :: rest ∧ c1.utf8Size = 1 ∧
      c2.utf8Size = 1 ∧ status = [c1, c2]) ∨
    (∃ c1 rest, line = c1 :: rest ∧ c1.utf8Size = 2 ∧ status = [c1]) := by
  cases line with
  | nil => simp [take2Bytes] at h
  | cons c1 rest =>
    unfold take2Bytes at h
    dsimp only at h
    split_ifs at h with hs1 hs2
    · cases rest with
      | nil => simp at h
      | cons c2 r2 =>
        dsimp only at h
        split_ifs at h with hs3
        cases h
        exact Or.inl ⟨c1, c2, r2, rfl, hs1, hs3, rfl⟩
    · cases h
      exact Or.inr ⟨c1, rest, rfl, hs2, rfl⟩

theorem is_unmerged_sizes {c1 c2 : Char}
    (h : is_unmerged_status [c1, c2] = true) :
    c1.utf8Size = 1 ∧ c2.utf8Size = 1 := by
  simp only [is_unmerged_status, Bool.or_eq_true, decide_eq_true_eq,
    show ("DD".data : List Char) = ['D', 'D'] from rfl,
    show ("AU".data : List Char) = ['A', 'U'] from rfl,
    show ("UD".data : List Char) = ['U', 'D'] from rfl,
    show ("UA".data : List Char) = ['U', 'A'] from rfl,
    show ("DU".data : List Char) = ['D', 'U'] from rfl,
    show ("AA".data : List Char) = ['A', 'A'] from rfl,
    show ("UU".data : List Char) = ['U', 'U'] from rfl,
    List.cons.injEq, and_true] at h
  rcases h with ((((((⟨rfl, rfl⟩ | ⟨rfl, rfl⟩) | ⟨rfl, rfl⟩) | ⟨rfl, rfl⟩) |
    ⟨rfl, rfl⟩) | ⟨rfl, rfl⟩) | ⟨rfl, rfl⟩) <;> exact ⟨by decide, by decide⟩

theorem is_unmerged_singleton (c : Char) :
    is_unmerged_status [c] = false := by
  simp [is_unmerged_status,
    show ("DD".data : List Char) = ['D', 'D'] from rfl,
    show ("AU".data : List Char) = ['A', 'U'] from rfl,
    show ("UD".data : List Char) = ['U', 'D'] from rfl,
    show ("UA".data : List Char) = ['U', 'A'] from rfl,
    show ("DU".data : List Char) = ['D', 'U'] from rfl,
    show ("AA".data : List Char) = ['A', 'A'] from rfl,
    show ("UU".data : List Char) = ['U', 'U'] from rfl]

theorem conflictLineSpec_small {line : List Char} (h : byteLen line < 2) :
    conflictLineSpec line = none := by
  cases line with
  | nil => rfl
  | cons c1 r1 =>
    cases r1 with
    | nil => rfl
    | cons c2 r2 =>
      exfalso
      rw [byteLen_cons, byteLen_cons] at h
      have h1 := Char.utf8Size_pos c1
      have h2 := Char.utf8Size_pos c2
      omega

theorem conflictLineSpec_not_unmerged {line status : List Char}
    (h2 : take2Bytes line = some status)
    (hu : is_unmerged_status status = false) :
    conflictLineSpec line = none := by
  rcases take2Bytes_eq h2 with
    ⟨c1, c2, rest, rfl, hs1, hs2, rfl⟩ | ⟨c1, rest, rfl, hs1, rfl⟩
  · cases rest with
    | nil => rfl
    | cons c3 r3 => simp [conflictLineSpec, hu]
  · cases rest with
    | nil => rfl
    | cons c2 r2 =>
      cases r2 with
      | nil => rfl
      | cons c3 r3 =>
        have hfu : is_unmerged_status [c1, c2] = false := by
          cases hq : is_unmerged_status [c1, c2] with
          | false => rfl
          | true =>
            have := (is_unmerged_sizes hq).1
            omega
        simp [conflictLineSpec, hfu]

theorem conflictLineSpec_agrees {line status : List Char} {res : Option String}
    (h2 : take2Bytes line = some status)
    (hu : is_unmerged_status status = true)
    (hp : parse_status_path line = some res) :
    conflictLineSpec line = res := by
  rcases take2Bytes_eq h2 with
    ⟨c1, c2, rest, rfl, hs1, hs2, rfl⟩ | ⟨c1, rest, rfl, hs1, rfl⟩
  · unfold parse_status_path at hp
    split_ifs at hp with hlen
    · cases hp
      rw [byteLen_cons, byteLen_cons] at hlen
      cases rest with
      | nil => rfl
      | cons c3 r3 =>
        rw [byteLen_cons] at hlen
        have hp3 := Char.utf8Size_pos c3
        have hr3 : r3 = [] := byteLen_eq_zero (by omega)
        subst hr3
        simp [conflictLineSpec, hu, trimChars, stripQuotes]
    · cases hd : drop3Bytes (c1 :: c2 :: rest) with
      | none =>
        rw [hd] at hp
        simp at hp
      | some r =>
        rw [hd] at hp
        unfold drop3Bytes at hd
        dsimp only at hd
        rw [if_neg (by omega), if_neg (by omega), if_pos hs1,
          if_neg (by omega), if_pos hs2] at hd
        cases rest with
        | nil => simp at hd
        | cons c3 r3 =>
          dsimp only at hd
          split_ifs at hd with hs4
          cases hd
          dsimp only at hp
          split_ifs at hp with he
          · cases hp
            simp [conflictLineSpec, hu, he]
          · cases hp
            simp [conflictLineSpec, hu, he]
  · exfalso
    rw [is_unmerged_singleton] at hu
    cases hu

theorem eraseDupsLoop_cons (a : String) (as bs : List String) :
    List.eraseDups.loop (a :: as) bs =
      if bs.contains a then List.eraseDups.loop as bs
      else List.eraseDups.loop as (a :: bs) := by
  rw [List.eraseDups.loop]
  split <;> simp_all

theorem collectConflictAux_eq :
    ∀ (lines : List (List Char)) (paths r : List String),
    collectConflictAux lines paths paths.reverse = some r →
    r = List.eraseDups.loop (List.filterMap conflictLineSpec lines)
          paths.reverse := by
  intro lines
  induction lines with
  | nil =>
    intro paths r h
    simp only [collectConflictAux, Option.some.injEq] at h
    subst h
    simp [List.eraseDups.loop]
  | cons line rest ih =>
    intro paths r h
    unfold collectConflictAux at h
    split_ifs at h with hb
    · rw [List.filterMap_cons_none (conflictLineSpec_small hb)]
      exact ih paths r h
    · cases h2 : take2Bytes line with
      | none =>
        rw [h2] at h
        simp at h
      | some status =>
        rw [h2] at h
        cases hu : is_unmerged_status status with
        | false =>
          simp only [hu, Bool.not_false, if_true] at h
          rw [List.filterMap_cons_none (conflictLineSpec_not_unmerged h2 hu)]
          exact ih paths r h
        | true =>
          simp only [hu, Bool.not_true, Bool.false_eq_true, if_false] at h
          cases hp : parse_status_path line with
          | none =>
            rw [hp] at h
            simp at h
          | some res =>
            rw [hp] at h
            have hsp := conflictLineSpec_agrees h2 hu hp
            cases res with
            | none =>
              dsimp only at h
              rw [List.filterMap_cons_none hsp]
              exact ih paths r h
            | some p =>
              dsimp only at h
              rw [List.filterMap_cons_some hsp, eraseDupsLoop_cons]
              by_cases hmem : p ∈ paths
              · rw [if_pos (by simpa using hmem)] at h
                rw [if_pos (List.elem_eq_true_of_mem (by simpa using hmem))]
                exact ih paths r h
              · rw [if_neg (by simpa using hmem)] at h
                have hc : (paths.reverse).contains p = false := by
                  cases hq : (paths.reverse).contains p with
                  | false => rfl
                  | true =>
                    exact absurd (by simpa using List.mem_of_elem_eq_true hq)
                      hmem
                rw [hc]
                simp only [Bool.false_eq_true, if_false]
                have hrev : (paths ++ [p]).reverse = p :: paths.reverse := by
                  simp
                rw [← hrev] at h
                rw [← hrev]
                exact ih (paths ++ [p]) r h

/-- C3: on every porcelain status text on which `collect_conflict_paths`
completes (no char-boundary abort, which genuine porcelain text never
triggers), the computed conflict set is exactly the claim's set: the
paths of lines whose leading two-character code is one of DD, AU, UD,
UA, DU, AA, UU, quotes stripped, de-duplicated preserving first
occurrence; in particular `UU file.txt` yields the non-empty set
containing `file.txt`. -/
theorem collect_conflict_paths_matches_spec :
    (∀ (s : String) (ps : List String), collect_conflict_paths s = some ps →
      ps = conflict_paths_spec s) ∧
    collect_conflict_paths "UU file.txt\n" = some ["file.txt"] ∧
    ("file.txt" ∈ ["file.txt"] ∧ (["file.txt"] : List String) ≠ []) := by
  refine ⟨?_, by decide, by simp⟩
  intro s ps h
  exact collectConflictAux_eq (rustLines s.data) [] ps h

/-- C3 witness: the refinement applied to the porcelain text
`UU file.txt`. -/
theorem collect_conflict_paths_matches_spec_witness :
    collect_conflict_paths "UU file.txt\n" = some ["file.txt"] ∧
    ["file.txt"] = conflict_paths_spec "UU file.txt\n" := by
  refine ⟨by decide, ?_⟩
  exact collect_conflict_paths_matches_spec.1 "UU file.txt\n" ["file.txt"]
    (by decide)

theorem git_run_rebase_conflict_downgraded :
    (git_run_rebase (Except.error GitError.mergeConflict)
      = .ok ⟨false, "", "CONFLICT: merge conflicts detected during rebase",
          1, .rebase⟩) ∧
    (git_run_rebase_with_env (Except.error GitError.mergeConflict)
      = .ok ⟨false, "", "CONFLICT: merge conflicts detected during rebase",
          1, .rebase⟩) ∧
    (∀ msg, git_run_rebase (.error (.commandError msg))
      = .ok ⟨false, "", msg, 1, .rebase⟩) ∧
    (∀ msg, git_run_rebase_with_env (.error (.commandError msg))
      = .ok ⟨false, "", msg, 1, .rebase⟩) ∧
    (∀ resp, git_run_rebase (.ok resp)
      = .ok ⟨decide (resp.exit_code = 0), resp.stdout, resp.stderr,
          resp.exit_code, .rebase⟩) ∧
    (∀ resp, git_run_rebase_with_env (.ok resp)
      = .ok ⟨decide (resp.exit_code = 0), resp.stdout, resp.stderr,
          resp.exit_code, .rebase⟩) ∧
    (∀ e : GitError, e ≠ .mergeConflict → (∀ msg, e ≠ .commandError msg) →
      git_run_rebase (.error e) = .error (gitErrorToString e) ∧
      git_run_rebase_with_env (.error e) = .error (gitErrorToString e)) := by
  refine ⟨rfl, rfl, fun msg => rfl, fun msg => rfl, fun resp => rfl,
    fun resp => rfl, ?_⟩
  intro e h1 h2
  cases e with
  | mergeConflict => exact absurd rfl h1
  | commandError msg => exact absurd rfl (h2 msg)
  | notARepo p => exact ⟨rfl, rfl⟩
  | ioError m => exact ⟨rfl, rfl⟩
  | gitNotFound m => exact ⟨rfl, rfl⟩
  | timeout n => exact ⟨rfl, rfl⟩
  | invalidRepoPath p => exact ⟨rfl, rfl⟩
  | unknown m => exact ⟨rfl, rfl⟩

/-- C4 witness: the propagation clause applied to a spawn failure. -/
theorem git_run_rebase_conflict_downgraded_witness :
    git_run_rebase (Except.error (GitError.ioError "spawn failed"))
      = Except.error "IO error: spawn failed" ∧
    git_run_rebase_with_env (Except.error (GitError.ioError "spawn failed"))
      = Except.error "IO error: spawn failed" := by
  have H := git_run_rebase_conflict_downgraded.2.2.2.2.2.2
    (GitError.ioError "spawn failed") (fun h => nomatch h)
    (fun _ h => nomatch h)
  exact H

/-- C4 counterexample: a not-a-repository classification — produced from a
completed (successfully spawned) git run, not a transport failure —
still propagates as Err, so Err is not limited to transport-level
failures. -/
theorem git_run_rebase_not_a_repo_err_cex :
    git_run_rebase (Except.error (GitError.notARepo "/repo"))
      = Except.error "Not a git repository: /repo" ∧
    git_run_rebase_with_env (Except.error (GitError.notARepo "/repo"))
      = Except.error "Not a git repository: /repo" := ⟨rfl, rfl⟩

/-- C5: an invocation whose process does not finish within the timeout
returns `Timeout(timeout_secs)`, but because the `Command` is built
without tokio's `kill_on_drop`, dropping the awaited child on timeout
does not terminate it: the spawned process is still running when the
call returns, contradicting the claim (and the source comment at
service.rs line 182). -/
theorem GitExecutor_run_timeout_process_survives :
    GitExecutor_run ⟨true, true, true, "", false, none, true, some 0,
        "", "", 0⟩ "/repo" "status --porcelain" 30
      = (Except.error (GitError.timeout 30), true) ∧
    runKillOnDrop = false := ⟨rfl, rfl⟩

/-- C6 (amended): with no operation marker present,
`cmd_check_conflict_state_impl` short-circuits to false without running
any git command, but `cmd_get_operation_state_impl` still runs exactly
one `status --porcelain` command (skipping only the metadata
resolution) and reports conflicts from that status. -/
theorem operation_state_idle_no_markers :
    (∀ r : RepoObs, noMarkers r → cmd_check_conflict_state r = (.ok false, 0)) ∧
    (∀ (r : RepoObs) (out : String) (paths : List String), noMarkers r →
      r.statusOut = some out → collect_conflict_paths out = some paths →
      cmd_get_operation_state r
        = (.ok ⟨false, false, false, false, !paths.isEmpty, paths,
            none, none, none, none⟩, 1)) := by
  constructor
  · intro r h
    obtain ⟨h1, h2, h3, h4, h5, h6⟩ := h
    unfold cmd_check_conflict_state detect_operation_flags
    rw [h1, h2, h3, h4, h5, h6]
    rfl
  · intro r out paths h hst hcp
    obtain ⟨h1, h2, h3, h4, h5, h6⟩ := h
    unfold cmd_get_operation_state detect_operation_flags
    rw [h1, h2, h3, h4, h5, h6, hst]
    dsimp only
    rw [hcp]
    unfold resolve_conflict_metadata
    rfl

/-- C6 witness: the two detector entry points on a marker-free repository
with clean status. -/
theorem operation_state_idle_no_markers_witness :
    cmd_check_conflict_state
        ⟨fun _ => false, some "", fun _ => none, fun _ => none⟩
      = (.ok false, 0) ∧
    cmd_get_operation_state
        ⟨fun _ => false, some "", fun _ => none, fun _ => none⟩
      = (.ok ⟨false, false, false, false, false, [],
          none, none, none, none⟩, 1) := by
  have H := operation_state_idle_no_markers
  exact ⟨H.1 _ ⟨rfl, rfl, rfl, rfl, rfl, rfl⟩,
    H.2 _ "" [] ⟨rfl, rfl, rfl, rfl, rfl, rfl⟩ rfl rfl⟩

/-- C6 counterexample: with every marker absent but an unmerged entry in
porcelain status, `cmd_get_operation_state_impl` still invokes one git
command and even reports conflicts — not the idle, no-conflicts answer
with no git command. -/
theorem cmd_get_operation_state_runs_git_cex :
    cmd_get_operation_state
        ⟨fun _ => false, some "UU file.txt\n", fun _ => none, fun _ => none⟩
      = (.ok ⟨false, false, false, false, true, ["file.txt"],
          none, none, none, none⟩, 1) ∧
    (1 : Nat) ≠ 0 := by
  exact ⟨rfl, by decide⟩

/-- C7 (amended): the service-layer classifier (`GitExecutor::run`) turns
a case-sensitive "not a git repository" in stderr into NotARepo, a
"CONFLICT" in stderr OR stdout into MergeConflict, and everything else
into CommandError with a formatted message embedding the exit code and
raw stderr; the engine-layer classifier (`GitCommandService::run`)
instead lowercases stderr for the not-a-repository test, looks for
"CONFLICT" in stderr ONLY, and otherwise returns
CommandFailed { code, stderr } with the raw stderr, not a formatted
message. -/
theorem classify_error_kinds :
    (∀ repo args code out err dur,
      containsSeq "not a git repository".data err.data = true →
      classifyRun repo args false code out err dur
        = .error (.notARepo repo)) ∧
    (∀ repo args code out err dur,
      containsSeq "not a git repository".data err.data = false →
      (containsSeq "CONFLICT".data err.data
        || containsSeq "CONFLICT".data out.data) = true →
      classifyRun repo args false code out err dur = .error .mergeConflict) ∧
    (∀ repo args code out err dur,
      containsSeq "not a git repository".data err.data = false →
      containsSeq "CONFLICT".data err.data = false →
      containsSeq "CONFLICT".data out.data = false →
      classifyRun repo args false code out err dur
        = .error (.commandError ("git " ++ args ++ " failed (exit "
            ++ toString code ++ "): " ++ err))) ∧
    (∀ repo code out err,
      containsSeq "not a git repository".data (toLowerStr err).data = true →
      classifyEngineRun repo false code out err
        = some (.notRepository repo)) ∧
    (∀ repo code out err,
      containsSeq "not a git repository".data (toLowerStr err).data = false →
      containsSeq "CONFLICT".data err.data = true →
      classifyEngineRun repo false code out err = some .mergeConflict) ∧
    (∀ repo code out err,
      containsSeq "not a git repository".data (toLowerStr err).data = false →
      containsSeq "CONFLICT".data err.data = false →
      classifyEngineRun repo false code out err
        = some (.commandFailed code err)) := by
  refine ⟨?_, ?_, ?_, ?_, ?_, ?_⟩
  · intro repo args code out err dur h1
    simp [classifyRun, h1]
  · intro repo args code out err dur h1 h2
    simp [classifyRun, h1, h2]
  · intro repo args code out err dur h1 h2 h3
    simp [classifyRun, h1, h2, h3]
  · intro repo code out err h1
    simp [classifyEngineRun, h1]
  · intro repo code out err h1 h2
    simp [classifyEngineRun, h1, h2]
  · intro repo code out err h1 h2
    simp [classifyEngineRun, h1, h2]

/-- C7 witness: both classifiers applied at concrete failing runs. -/
theorem classify_error_kinds_witness :
    classifyRun "/r" "status" false 128 ""
        "fatal: not a git repository (or any of the parent directories)" 0
      = .error (.notARepo "/r") ∧
    classifyRun "/r" "merge x" false 1
        "CONFLICT (content): merge conflict in f" "" 0
      = .error .mergeConflict ∧
    classifyRun "/r" "status" false 1 "" "boom" 0
      = .error (.commandError "git status failed (exit 1): boom") ∧
    classifyEngineRun "/r" false (some 128) ""
        "fatal: Not a Git Repository"
      = some (.notRepository "/r") ∧
    classifyEngineRun "/r" false (some 1) ""
        "CONFLICT (content): merge conflict in f"
      = some .mergeConflict ∧
    classifyEngineRun "/r" false (some 1) "" "boom"
      = some (.commandFailed (some 1) "boom") := by
  refine ⟨?_, ?_, ?_, ?_, ?_, ?_⟩
  · exact classify_error_kinds.1 "/r" "status" 128 ""
      "fatal: not a git repository (or any of the parent directories)" 0
      (by decide)
  · exact classify_error_kinds.2.1 "/r" "merge x" 1
      "CONFLICT (content): merge conflict in f" "" 0 (by decide) (by decide)
  · exact classify_error_kinds.2.2.1 "/r" "status" 1 "" "boom" 0
      (by decide) (by decide) (by decide)
  · exact classify_error_kinds.2.2.2.1 "/r" (some 128) ""
      "fatal: Not a Git Repository" (by decide)
  · exact classify_error_kinds.2.2.2.2.1 "/r" (some 1) ""
      "CONFLICT (content): merge conflict in f" (by decide) (by decide)
  · exact classify_error_kinds.2.2.2.2.2 "/r" (some 1) "" "boom"
      (by decide) (by decide)

/-- C7 counterexample: on one and the same failing observation — conflict
markers in stdout, plain "boom" in stderr — the engine-layer classifier
returns CommandFailed with raw stderr while the service layer reports a
merge conflict; and a capitalised not-a-repository message is NotARepo
only for the engine layer.  The engine classification claimed by the
spec (conflict in stdout-or-stderr, formatted CommandError message,
case-sensitive repo check) is the service layer's, not the engine's. -/
theorem classifyEngineRun_divergence_cex :
    classifyEngineRun "/r" false (some 1)
        "CONFLICT (content): merge conflict in f" "boom"
      = some (.commandFailed (some 1) "boom") ∧
    classifyRun "/r" "merge x" false 1
        "CONFLICT (content): merge conflict in f" "boom" 0
      = .error .mergeConflict ∧
    classifyEngineRun "/r" false (some 128) "" "fatal: Not a Git Repository"
      = some (.notRepository "/r") ∧
    classifyRun "/r" "status" false 128 "" "fatal: Not a Git Repository" 0
      ≠ .error (.notARepo "/r") := by
  refine ⟨rfl, rfl, rfl, ?_⟩
  intro h
  have heq : classifyRun "/r" "status" false 128 ""
      "fatal: Not a Git Repository" 0
      = .error (.commandError
          "git status failed (exit 128): fatal: Not a Git Repository") := rfl
  rw [heq] at h
  exact absurd (Except.error.inj h) (by decide)

/-- C8: `cmd_rebase_interactive_apply_impl` deletes both temp files on
every path that reaches the git run, but its early error returns leak
them: a failed editor-script write leaves the todo file on disk, and a
failed chmod leaves both files, contradicting the claim that the two
files are always removed before returning; the stage/unstage line
commands do delete their temp patch file on all paths. -/
theorem rebase_apply_temp_file_leak :
    cmd_rebase_interactive_apply ⟨true, false, true, .ok ⟨"", "", 0, 0⟩⟩
      = (.error "failed to write editor script", ["todo"]) ∧
    cmd_rebase_interactive_apply ⟨true, true, false, .ok ⟨"", "", 0, 0⟩⟩
      = (.error "failed to set script permissions", ["todo", "script"]) ∧
    cmd_rebase_interactive_apply ⟨false, true, true, .ok ⟨"", "", 0, 0⟩⟩
      = (.error "failed to write todo file", []) ∧
    cmd_rebase_interactive_apply ⟨true, true, true, .ok ⟨"", "", 0, 0⟩⟩
      = (.ok ⟨true, "", "", 0, .rebase⟩, []) ∧
    cmd_rebase_interactive_apply ⟨true, true, true,
        .error GitError.mergeConflict⟩
      = (.ok ⟨false, "", "CONFLICT: merge conflicts detected during rebase",
          1, .rebase⟩, []) ∧
    cmd_rebase_interactive_apply ⟨true, true, true,
        .error (GitError.timeout 30)⟩
      = (.error "Command timed out after 30 seconds", []) ∧
    cmd_git_stage_line_files ⟨true, .ok ⟨"", "", 0, 0⟩⟩ = (.ok (), []) ∧
    cmd_git_stage_line_files ⟨false, .ok ⟨"", "", 0, 0⟩⟩
      = (.error "Failed to write temporary patch file", []) ∧
    cmd_git_stage_line_files ⟨true, .error GitError.mergeConflict⟩
      = (.error "Merge conflict detected", []) ∧
    cmd_git_unstage_line_files ⟨true, .error (GitError.commandError "boom")⟩
      = (.error "Git command failed: boom", []) :=
  ⟨rfl, rfl, rfl, rfl, rfl, rfl, rfl, rfl, rfl, rfl⟩
